import Mathlib

/-
  Verification of the pawn-structure evaluation of SugaR (src/source/pawns.cpp),
  a Stockfish-derived chess engine.  The C++ code is shallowly embedded:
  bitboards become finite sets of squares, the per-pawn classifier loop becomes
  a sum over the pawn set (every per-pawn update in the loop is commutative and
  reads only position data, never the accumulator, so the fold order is
  irrelevant), and machine integers become Int with C truncating division made
  explicit (Int.tdiv truncates toward zero, matching C).
-/

set_option maxHeartbeats 1000000
set_option maxRecDepth 40000

namespace SugaRPawns

/-- Piece colors. WHITE and BLACK of the C++ enum. -/
inductive Color where
  | white : Color
  | black : Color
deriving DecidableEq, Fintype

/-- The opposite color (the template parameter Them in pawns.cpp line 92). -/
def Color.other : Color → Color
  | Color.white => Color.black
  | Color.black => Color.white

/-- Piece types relevant to pawns.cpp: only pawns and kings are inspected. -/
inductive PieceType where
  | pawn : PieceType
  | king : PieceType
deriving DecidableEq

/-- A piece is a color together with a piece type (make_piece). -/
abbrev Piece := Color × PieceType

/-- Squares are indexed 0..63, square = 8 * rank + file, A1 = 0, H8 = 63. -/
abbrev Square := Fin 64

/-- A bitboard: a set of squares. -/
abbrev Board := Finset Square

/-- file_of: the file index 0..7 of a square (FILE_A = 0). -/
def fileOf (s : Square) : Nat := s.val % 8

/-- rank_of: the rank index 0..7 of a square (RANK_1 = 0). -/
def rankOf (s : Square) : Nat := s.val / 8

/-- relative_rank: the rank seen from the side to move, RANK_1 = 0. -/
def relativeRank (c : Color) (s : Square) : Nat :=
  match c with
  | Color.white => rankOf s
  | Color.black => 7 - rankOf s

/-- make_square from a file and a rank (arguments are reduced mod 8 so the
function is total; every use in the development stays in range). -/
def mkSq (f r : Nat) : Square := ⟨8 * (r % 8) + f % 8, by omega⟩

/-- Two files are adjacent (the predicate behind adjacent_files_bb). -/
def adjFile (fs ft : Nat) : Prop := ft + 1 = fs ∨ ft = fs + 1

instance (fs ft : Nat) : Decidable (adjFile fs ft) := by
  unfold adjFile; infer_instance

/-- rt is the rank one step forward of rs for color c (the direction Up). -/
def rankUpOne (c : Color) (rs rt : Nat) : Prop :=
  match c with
  | Color.white => rt = rs + 1
  | Color.black => rt + 1 = rs

instance (c : Color) (rs rt : Nat) : Decidable (rankUpOne c rs rt) := by
  cases c <;> (unfold rankUpOne; infer_instance)

/-- rt is two steps forward of rs for color c. -/
def rankUpTwo (c : Color) (rs rt : Nat) : Prop :=
  match c with
  | Color.white => rt = rs + 2
  | Color.black => rt + 2 = rs

instance (c : Color) (rs rt : Nat) : Decidable (rankUpTwo c rs rt) := by
  cases c <;> (unfold rankUpTwo; infer_instance)

/-- rt is strictly ahead of rs from the point of view of color c. -/
def aheadRank (c : Color) (rs rt : Nat) : Prop :=
  match c with
  | Color.white => rs < rt
  | Color.black => rt < rs

instance (c : Color) (rs rt : Nat) : Decidable (aheadRank c rs rt) := by
  cases c <;> (unfold aheadRank; infer_instance)

/-- file_bb: all squares of the given file. -/
def fileBB (f : Nat) : Board := Finset.univ.filter (fun t => fileOf t = f)

/-- rank_bb: all squares of the given rank index. -/
def rankBB (r : Nat) : Board := Finset.univ.filter (fun t => rankOf t = r)

/-- forward_ranks_bb(c, r): all squares strictly ahead of rank r for color c. -/
def forwardRanksBB (c : Color) (r : Nat) : Board :=
  Finset.univ.filter (fun t => aheadRank c r (rankOf t))

/-- forward_file_bb(c, s): squares on the file of s strictly ahead of s. -/
def forwardFileBB (c : Color) (s : Square) : Board :=
  Finset.univ.filter (fun t => fileOf t = fileOf s ∧ aheadRank c (rankOf s) (rankOf t))

/-- pawn_attack_span(c, s): squares on the files adjacent to s strictly ahead of s. -/
def pawnAttackSpanBB (c : Color) (s : Square) : Board :=
  Finset.univ.filter (fun t => adjFile (fileOf s) (fileOf t) ∧ aheadRank c (rankOf s) (rankOf t))

/-- passed_pawn_mask(c, s): the passed-pawn corridor of s, the union of the
forward file and the attack span. -/
def passedPawnMaskBB (c : Color) (s : Square) : Board :=
  Finset.univ.filter (fun t =>
    (fileOf t = fileOf s ∨ adjFile (fileOf s) (fileOf t)) ∧ aheadRank c (rankOf s) (rankOf t))

/-- PawnAttacks[c][s]: the squares attacked by a pawn of color c on s. -/
def pawnAttacksSq (c : Color) (s : Square) : Board :=
  Finset.univ.filter (fun t => adjFile (fileOf s) (fileOf t) ∧ rankUpOne c (rankOf s) (rankOf t))

/-- The bitboard of the single square one step ahead of s (SquareBB[s + Up]);
empty when that square is off the board. -/
def upBB (c : Color) (s : Square) : Board :=
  Finset.univ.filter (fun t => fileOf t = fileOf s ∧ rankUpOne c (rankOf s) (rankOf t))

/-- The squares attacked by a pawn of color c standing one step ahead of s
(PawnAttacks[c][s + Up]). -/
def upAttacksBB (c : Color) (s : Square) : Board :=
  Finset.univ.filter (fun t => adjFile (fileOf s) (fileOf t) ∧ rankUpTwo c (rankOf s) (rankOf t))

/-- The bitboard of the single square one step behind s (SquareBB[s - Up]). -/
def downBB (c : Color) (s : Square) : Board :=
  Finset.univ.filter (fun t => fileOf t = fileOf s ∧ rankUpOne c (rankOf t) (rankOf s))

/-- rank_bb(s - Up): the whole rank one step behind s for color c. -/
def downRankBB (c : Color) (s : Square) : Board :=
  Finset.univ.filter (fun t => rankUpOne c (rankOf t) (rankOf s))

/-- adjacent_files_bb(file_of(s)). -/
def adjacentFilesBB (f : Nat) : Board :=
  Finset.univ.filter (fun t => adjFile f (fileOf t))

/-- pawn_attack_span(Them, s + Up), used by the backward test: squares on the
files adjacent to s whose rank is not ahead (for Us) of the square in front of s. -/
def backwardSpanBB (c : Color) (s : Square) : Board :=
  Finset.univ.filter (fun t => adjFile (fileOf s) (fileOf t) ∧ ¬ aheadRank c (rankOf s) (rankOf t))

/-- shift of a whole bitboard one step forward (shift Up). -/
def shiftUpBB (c : Color) (b : Board) : Board :=
  Finset.univ.filter (fun t => ∃ p ∈ b, fileOf p = fileOf t ∧ rankUpOne c (rankOf p) (rankOf t))

/-- pawn_attacks_bb: all squares attacked by some pawn of b (of color c). -/
def pawnAttacksSetBB (c : Color) (b : Board) : Board :=
  Finset.univ.filter (fun t => ∃ p ∈ b, adjFile (fileOf p) (fileOf t) ∧ rankUpOne c (rankOf p) (rankOf t))

/-- The union of the attack spans of all pawns of b (the pawnAttacksSpan field). -/
def spanUnionBB (c : Color) (b : Board) : Board :=
  Finset.univ.filter (fun t => ∃ p ∈ b, adjFile (fileOf p) (fileOf t) ∧ aheadRank c (rankOf p) (rankOf t))

/-- DarkSquares: the squares of the color of A1. -/
def darkSquaresBB : Board :=
  Finset.univ.filter (fun t => (fileOf t + rankOf t) % 2 = 0)

/-- Bitboard exclusive-or, as used by the passed-pawn condition (i). -/
def bxor (a b : Board) : Board := (a \ b) ∪ (b \ a)

/-- Score = make_score(mg, eg): a midgame and an endgame value, combined
componentwise (pawns.cpp line 34). -/
structure Score where
  mg : Int
  eg : Int
deriving DecidableEq

theorem Score.eta : ∀ {a b : Score}, a.mg = b.mg → a.eg = b.eg → a = b := by
  intro a b h1 h2
  cases a
  cases b
  simp_all

instance : Zero Score := ⟨⟨0, 0⟩⟩

instance : Add Score := ⟨fun a b => ⟨a.mg + b.mg, a.eg + b.eg⟩⟩

instance : Neg Score := ⟨fun a => ⟨-a.mg, -a.eg⟩⟩

instance : Sub Score := ⟨fun a b => ⟨a.mg - b.mg, a.eg - b.eg⟩⟩

theorem Score.add_mg (a b : Score) : (a + b).mg = a.mg + b.mg := rfl

theorem Score.add_eg (a b : Score) : (a + b).eg = a.eg + b.eg := rfl

theorem Score.zero_mg : (0 : Score).mg = 0 := rfl

theorem Score.zero_eg : (0 : Score).eg = 0 := rfl

instance : AddCommMonoid Score where
  add_assoc := by
    intro a b c
    apply Score.eta <;> simp only [Score.add_mg, Score.add_eg] <;> ring
  zero_add := by
    intro a
    apply Score.eta <;> simp [Score.add_mg, Score.add_eg, Score.zero_mg, Score.zero_eg]
  add_zero := by
    intro a
    apply Score.eta <;> simp [Score.add_mg, Score.add_eg, Score.zero_mg, Score.zero_eg]
  add_comm := by
    intro a b
    apply Score.eta <;> simp only [Score.add_mg, Score.add_eg] <;> ring
  nsmul := nsmulRec

/-- Isolated pawn penalty, S(13, 16). -/
def Isolated : Score := ⟨13, 16⟩

/-- Backward pawn penalty, S(17, 11). -/
def Backward : Score := ⟨17, 11⟩

/-- Doubled pawn penalty, S(13, 40). -/
def Doubled : Score := ⟨13, 40⟩

/-- PawnScoresIsolatedRank3, S(-5, 0). -/
def PawnScoresIsolatedRank3 : Score := ⟨-5, 0⟩

/-- PawnScoresConnectedPassed, S(-16, 16). -/
def PawnScoresConnectedPassed : Score := ⟨-16, 16⟩

/-- KingSafetyCompensationPawnScoresConnectedPassed, S(-5, 0). -/
def KingSafetyCompensation : Score := ⟨-5, 0⟩

/-- ProtectedPassedPawn, S(5, 5). -/
def ProtectedPassedPawn : Score := ⟨5, 5⟩

/-- The seed row of Pawns::init (pawns.cpp line 328), indexed by the 0-based
rank enum (RANK_1 = 0). -/
def Seed : Nat → Int
  | 0 => 0
  | 1 => 13
  | 2 => 24
  | 3 => 18
  | 4 => 65
  | 5 => 100
  | 6 => 175
  | 7 => 330
  | _ => 0

/-- The value v of a Connected table cell as computed by Pawns::init
(pawns.cpp lines 335-336): v = 17 * support, then
v += (Seed[r] + (phalanx ? (Seed[r+1] - Seed[r]) / 2 : 0)) >> opposed.
The two C statements mean the shift covers only the seed part, never the
17 * support term.  All shifted operands are nonnegative, so the C right
shift is division by 2 ^ opposed; Int.tdiv is the C truncating division. -/
def connectedV (opposed phalanx : Bool) (support r : Nat) : Int :=
  17 * support +
    Int.tdiv (Seed r + (if phalanx then Int.tdiv (Seed (r + 1) - Seed r) 2 else 0))
      (2 ^ (if opposed then 1 else 0))

/-- The Connected table after Pawns::init has run: the loop fills ranks
RANK_2..RANK_7 (enum 1..6) and support 0..2; every other cell keeps the
zero value of the global array. -/
def Connected (opposed phalanx : Bool) (support r : Nat) : Score :=
  if 1 ≤ r ∧ r ≤ 6 ∧ support ≤ 2 then
    ⟨connectedV opposed phalanx support r,
     Int.tdiv (connectedV opposed phalanx support r * ((r : Int) - 2)) 4⟩
  else 0

/-- A position as seen by pawns.cpp: the piece placement (only pawns and kings
are ever inspected) and the externally produced pawn hash key. -/
structure Position where
  board : Square → Option Piece
  pawnKey : Nat

/-- pos.pieces(c, pt): the bitboard of pieces of one color and type. -/
def Position.pieces (pos : Position) (c : Color) (pt : PieceType) : Board :=
  Finset.univ.filter (fun t => pos.board t = some (c, pt))

/-- ourPawns (pawns.cpp line 102). -/
def ourPawns (pos : Position) (us : Color) : Board := pos.pieces us PieceType.pawn

/-- theirPawns (pawns.cpp line 103). -/
def theirPawns (pos : Position) (us : Color) : Board := pos.pieces us.other PieceType.pawn

/-- opposed (pawns.cpp line 123): an enemy pawn stands ahead on the same file. -/
def opposedP (pos : Position) (us : Color) (s : Square) : Prop :=
  (theirPawns pos us ∩ forwardFileBB us s).Nonempty

instance (pos : Position) (us : Color) (s : Square) : Decidable (opposedP pos us s) := by
  unfold opposedP; infer_instance

/-- stoppers (pawns.cpp line 124): enemy pawns in the passed-pawn corridor. -/
def stoppersBB (pos : Position) (us : Color) (s : Square) : Board :=
  theirPawns pos us ∩ passedPawnMaskBB us s

/-- lever (pawns.cpp line 125): enemy pawns attacking s. -/
def leverBB (pos : Position) (us : Color) (s : Square) : Board :=
  theirPawns pos us ∩ pawnAttacksSq us s

/-- leverPush (pawns.cpp line 126): enemy pawns attacking the square ahead of s. -/
def leverPushBB (pos : Position) (us : Color) (s : Square) : Board :=
  theirPawns pos us ∩ upAttacksBB us s

/-- doubled (pawns.cpp line 127): an own pawn directly behind s. -/
def doubledBB (pos : Position) (us : Color) (s : Square) : Board :=
  ourPawns pos us ∩ downBB us s

/-- neighbours (pawns.cpp line 128): own pawns on the adjacent files. -/
def neighboursBB (pos : Position) (us : Color) (s : Square) : Board :=
  ourPawns pos us ∩ adjacentFilesBB (fileOf s)

/-- phalanx (pawns.cpp line 129): neighbours on the rank of s. -/
def phalanxBB (pos : Position) (us : Color) (s : Square) : Board :=
  neighboursBB pos us s ∩ rankBB (rankOf s)

/-- supported (pawns.cpp line 130): neighbours one rank behind s. -/
def supportedBB (pos : Position) (us : Color) (s : Square) : Board :=
  neighboursBB pos us s ∩ downRankBB us s

/-- backward (pawns.cpp lines 134-135). -/
def backwardP (pos : Position) (us : Color) (s : Square) : Prop :=
  (ourPawns pos us ∩ backwardSpanBB us s) = ∅ ∧
    (stoppersBB pos us s ∩ (leverPushBB pos us s ∪ upBB us s)).Nonempty

instance (pos : Position) (us : Color) (s : Square) : Decidable (backwardP pos us s) := by
  unfold backwardP; infer_instance

/-- Passed-pawn condition (i) (pawns.cpp lines 141-144): the stoppers are
exactly the levers and lever pushes, no own pawn ahead on the file, enough
support against levers, and enough phalanx against lever pushes.  The counts
are compared as C ints, so popcount(lever) - 1 may be negative. -/
def passedCondI (pos : Position) (us : Color) (s : Square) : Prop :=
  bxor (bxor (stoppersBB pos us s) (leverBB pos us s)) (leverPushBB pos us s) = ∅ ∧
    (ourPawns pos us ∩ forwardFileBB us s) = ∅ ∧
    ((leverBB pos us s).card : Int) - 1 ≤ ((supportedBB pos us s).card : Int) ∧
    (leverPushBB pos us s).card ≤ (phalanxBB pos us s).card

instance (pos : Position) (us : Color) (s : Square) : Decidable (passedCondI pos us s) := by
  unfold passedCondI; infer_instance

/-- Guard of passed-pawn condition (ii) (pawns.cpp line 147-148): the only
stopper is the single enemy pawn one step ahead of s, and s stands on
relative rank 5 (enum value 4) or beyond. -/
def passedCondIIGuard (pos : Position) (us : Color) (s : Square) : Prop :=
  stoppersBB pos us s = upBB us s ∧ 4 ≤ relativeRank us s

instance (pos : Position) (us : Color) (s : Square) : Decidable (passedCondIIGuard pos us s) := by
  unfold passedCondIIGuard; infer_instance

/-- Body of condition (ii) (pawns.cpp lines 150-153): the while loop over
b = shift Up supported and not theirPawns marks the pawn passed as soon as
one square of b is attacked by at most one enemy pawn, so the loop is an
existential over b. -/
def passedCondIIBody (pos : Position) (us : Color) (s : Square) : Prop :=
  ∃ q ∈ shiftUpBB us (supportedBB pos us s) \ theirPawns pos us,
    (theirPawns pos us ∩ pawnAttacksSq us q).card ≤ 1

instance (pos : Position) (us : Color) (s : Square) : Decidable (passedCondIIBody pos us s) := by
  unfold passedCondIIBody; infer_instance

/-- Whether the classifier adds s to passedPawns (pawns.cpp lines 141-154):
condition (i), or failing it the else branch with guard and loop of (ii). -/
def passedMark (pos : Position) (us : Color) (s : Square) : Bool :=
  if passedCondI pos us s then true
  else if passedCondIIGuard pos us s then decide (passedCondIIBody pos us s)
  else false

/-- The passedPawns bitboard produced by the first pass of the classifier. -/
def passedBB (pos : Position) (us : Color) : Board :=
  (ourPawns pos us).filter (fun s => passedMark pos us s = true)

/-- The rpp computation of the protected-passed-pawn block (pawns.cpp lines
199-218): the rank one step toward our own side, clamped at the board edge.
The second component records whether the unconditional assert(false) of the
Black branch (line 216) is reached; with assertions compiled out the rank is
simply left unchanged. -/
def rppCalc (us : Color) (r : Nat) : Nat × Bool :=
  match us with
  | Color.white => if 1 < r then (r - 1, false) else (r, false)
  | Color.black => if r < 6 then (r + 1, false) else (r, true)

/-- passed1 (pawns.cpp lines 181 and 263): note that the code intersects the
passed-pawn corridor with ourPawns, the pawns of the scanned color itself. -/
def passed1P (pos : Position) (us : Color) (s : Square) : Prop :=
  (passedPawnMaskBB us s ∩ ourPawns pos us).Nonempty

instance (pos : Position) (us : Color) (s : Square) : Decidable (passed1P pos us s) := by
  unfold passed1P; infer_instance

/-- The file one step toward FILE_A, clamped (pawns.cpp lines 189-192). -/
def fileMinus (f : Nat) : Nat := if 0 < f then f - 1 else f

/-- The file one step toward FILE_H, clamped (pawns.cpp lines 194-197). -/
def filePlus (f : Nat) : Nat := if f < 7 then f + 1 else f

/-- The protected-passed-pawn contribution of one scanned pawn (pawns.cpp
lines 178-237), with assertions compiled out. -/
def protectedTerm (pos : Position) (us : Color) (s : Square) : Score :=
  let f := fileOf s
  let rp1 := rankOf s
  let fp0 := fileMinus f
  let fp2 := filePlus f
  let rpp := (rppCalc us rp1).1
  if rpp ≠ rp1 then
    if passed1P pos us s ∧
        ((fp0 ≠ f ∧ pos.board (mkSq fp0 rpp) = some (us, PieceType.pawn)) ∨
         (fp2 ≠ f ∧ pos.board (mkSq fp2 rpp) = some (us, PieceType.pawn))) then
      ProtectedPassedPawn
    else 0
  else 0

/-- The primary per-pawn score of the first pass (pawns.cpp lines 157-176):
connected, else isolated (with the rank-3 adjustment), else backward,
plus the doubled penalty, plus the protected-passed bonus. -/
def scoreTerm1 (pos : Position) (us : Color) (s : Square) : Score :=
  (if (supportedBB pos us s ∪ phalanxBB pos us s).Nonempty then
     Connected (decide (opposedP pos us s)) (decide (phalanxBB pos us s).Nonempty)
       (supportedBB pos us s).card (relativeRank us s)
   else if neighboursBB pos us s = ∅ then
     -Isolated + (if relativeRank us s = 2 then PawnScoresIsolatedRank3 else 0)
   else if backwardP pos us s then -Backward
   else 0)
  + (if (doubledBB pos us s).Nonempty ∧ supportedBB pos us s = ∅ then -Doubled else 0)
  + protectedTerm pos us s

/-- The weakUnopposed increment of one scanned pawn (pawns.cpp lines 162, 173). -/
def weakUnopposedTerm (pos : Position) (us : Color) (s : Square) : Nat :=
  if (supportedBB pos us s ∪ phalanxBB pos us s).Nonempty then 0
  else if neighboursBB pos us s = ∅ then (if opposedP pos us s then 0 else 1)
  else if backwardP pos us s then (if opposedP pos us s then 0 else 1)
  else 0

/-- The king-locating scan of the second pass (pawns.cpp lines 290-299):
a linear walk from square A1 upward until the own king is found. -/
def firstKing (pos : Position) (us : Color) : Option Square :=
  (List.finRange 64).find? (fun q => pos.board q = some (us, PieceType.king))

/-- The partner scan of the second pass (pawns.cpp lines 271-284): walk ranks
RANK_2..RANK_7 of file f0; whenever an own pawn is found, test whether it is
in passedPawns and stop on success, so the loop computes an existential. -/
def scanPassed0 (pos : Position) (us : Color) (f0 : Nat) : Bool :=
  (List.range 6).any (fun i =>
    decide (pos.board (mkSq f0 (i + 1)) = some (us, PieceType.pawn) ∧
      mkSq f0 (i + 1) ∈ passedBB pos us))

/-- The connected-passed contribution of one pawn of the second pass
(pawns.cpp lines 241-313). -/
def connectedPassedTerm (pos : Position) (us : Color) (s : Square) : Score :=
  let f := fileOf s
  let f0 := fileMinus f
  let f2 := filePlus f
  if f0 ≠ f ∧ passed1P pos us s ∧ scanPassed0 pos us f0 = true then
    PawnScoresConnectedPassed +
      (match firstKing pos us with
       | some k => if f0 ≤ fileOf k ∧ fileOf k ≤ f2 then KingSafetyCompensation else 0
       | none => 0)
  else 0

/-- A file index as Fin 8. -/
def fileFin (s : Square) : Fin 8 := ⟨s.val % 8, by omega⟩

/-- The result of evaluate(pos, e) for one color (pawns.cpp lines 89-317):
the returned score together with every Entry field the template writes. -/
structure SideResult where
  score : Score
  passedPawns : Board
  pawnAttacks : Board
  pawnAttacksSpan : Board
  weakUnopposed : Nat
  semiopenFiles : Finset (Fin 8)
  kingSquare : Option Square
  pawnsOnDark : Nat
  pawnsOnLight : Nat

/-- evaluate(pos, e) for one color.  The per-pawn loop only accumulates
commutative updates (score sums, set unions, counter increments, file-bit
clears) and never reads the accumulator, so it is rendered as sums and set
images over the pawn set; the second loop runs after passedPawns is complete
and is rendered as a second sum. -/
def evaluateSide (pos : Position) (us : Color) : SideResult :=
  let our := ourPawns pos us
  { score := (∑ s ∈ our, scoreTerm1 pos us s) + (∑ s ∈ our, connectedPassedTerm pos us s)
  , passedPawns := passedBB pos us
  , pawnAttacks := pawnAttacksSetBB us our
  , pawnAttacksSpan := spanUnionBB us our
  , weakUnopposed := ∑ s ∈ our, weakUnopposedTerm pos us s
  , semiopenFiles := Finset.univ \ our.image fileFin
  , kingSquare := none
  , pawnsOnDark := (our ∩ darkSquaresBB).card
  , pawnsOnLight := our.card - (our ∩ darkSquaresBB).card }

/-- The 8-bit semi-open-files mask as an integer (bit f set when file f has
no pawn of the color), to state claims about the literal 0xFF value. -/
def maskVal (m : Finset (Fin 8)) : Nat := ∑ f ∈ m, 2 ^ (f : Nat)

/-- The low-byte squares of an 8-bit file mask: oring an int file mask into a
64-bit bitboard, as the asymmetry formula of probe does, plants the mask on
the squares of rank 1. -/
def maskToRank1 (m : Finset (Fin 8)) : Board :=
  m.image (fun f => (⟨f.val, by omega⟩ : Square))

/-- Symmetric difference of two file masks (the xor of the two ints). -/
def maskXor (a b : Finset (Fin 8)) : Finset (Fin 8) := (a \ b) ∪ (b \ a)

/-- The cached record of the pawn hash table (struct Pawns::Entry), restricted
to the fields pawns.cpp reads or writes in probe and evaluate. -/
structure Entry where
  key : Nat
  scores : Color → Score
  passedPawns : Color → Board
  pawnAttacks : Color → Board
  pawnAttacksSpan : Color → Board
  weakUnopposed : Color → Nat
  semiopenFiles : Color → Finset (Fin 8)
  kingSquares : Color → Option Square
  pawnsOnSquares : Color → Color → Nat
  openFiles : Nat
  asymmetry : Nat

/-- The entry stored on a probe miss (pawns.cpp lines 356-361): evaluate for
both colors, then key, openFiles and asymmetry.  pawnsOnSquares[Us][BLACK]
counts the own pawns on dark squares, pawnsOnSquares[Us][WHITE] the rest. -/
def computeEntry (pos : Position) : Entry :=
  let w := evaluateSide pos Color.white
  let b := evaluateSide pos Color.black
  let side := fun c => match c with | Color.white => w | Color.black => b
  { key := pos.pawnKey
  , scores := fun c => (side c).score
  , passedPawns := fun c => (side c).passedPawns
  , pawnAttacks := fun c => (side c).pawnAttacks
  , pawnAttacksSpan := fun c => (side c).pawnAttacksSpan
  , weakUnopposed := fun c => (side c).weakUnopposed
  , semiopenFiles := fun c => (side c).semiopenFiles
  , kingSquares := fun c => (side c).kingSquare
  , pawnsOnSquares := fun c sq =>
      match sq with
      | Color.black => (side c).pawnsOnDark
      | Color.white => (side c).pawnsOnLight
  , openFiles := (w.semiopenFiles ∩ b.semiopenFiles).card
  , asymmetry := ((w.passedPawns ∪ b.passedPawns) ∪
      maskToRank1 (maskXor w.semiopenFiles b.semiopenFiles)).card }

/-- Pawns::probe (pawns.cpp lines 348-364).  The argument e is the content of
the direct-mapped table slot addressed by the key of pos; the Bool of the
result records whether the structural classifier ran (a recomputation
counter). -/
def probe (pos : Position) (e : Entry) : Entry × Bool :=
  if e.key = pos.pawnKey then (e, false)
  else (computeEntry pos, true)

/-- ShelterStrength[d][rank] (pawns.cpp lines 61-70).  Each initializer row
lists seven values; the eighth cell of the C array is zero-initialized, and
rows beyond the fourth do not exist (d is always at most 3). -/
def ShelterStrength (d r : Nat) : Int :=
  match d, r with
  | 0, 0 => 7 | 0, 1 => 76 | 0, 2 => 84 | 0, 3 => 38 | 0, 4 => 7 | 0, 5 => 30 | 0, 6 => -19
  | 1, 0 => -3 | 1, 1 => 93 | 1, 2 => 52 | 1, 3 => -17 | 1, 4 => 12 | 1, 5 => -22 | 1, 6 => -35
  | 2, 0 => -6 | 2, 1 => 83 | 2, 2 => 25 | 2, 3 => -24 | 2, 4 => 15 | 2, 5 => 22 | 2, 6 => -39
  | 3, 0 => 11 | 3, 1 => 83 | 3, 2 => 19 | 3, 3 => 8 | 3, 4 => 18 | 3, 5 => -21 | 3, 6 => -30
  | _, _ => 0

/-- StormDanger[blocked][d][rank] (pawns.cpp lines 75-84).  Each row lists
five values; the remaining cells of the C array are zero-initialized. -/
def StormDanger (blocked : Bool) (d r : Nat) : Int :=
  match blocked, d, r with
  | false, 0, 0 => 25 | false, 0, 1 => 79 | false, 0, 2 => 107 | false, 0, 3 => 51 | false, 0, 4 => 27
  | false, 1, 0 => 15 | false, 1, 1 => 45 | false, 1, 2 => 131 | false, 1, 3 => 8 | false, 1, 4 => 25
  | false, 2, 0 => 0 | false, 2, 1 => 42 | false, 2, 2 => 118 | false, 2, 3 => 56 | false, 2, 4 => 27
  | false, 3, 0 => 3 | false, 3, 1 => 54 | false, 3, 2 => 110 | false, 3, 3 => 55 | false, 3, 4 => 26
  | true, 0, 2 => 37 | true, 0, 3 => 5 | true, 0, 4 => -48
  | true, 1, 2 => 68 | true, 1, 3 => -12 | true, 1, 4 => 13
  | true, 2, 2 => 111 | true, 2, 3 => -25 | true, 2, 4 => -3
  | true, 3, 2 => 108 | true, 3, 3 => 14 | true, 3, 4 => 21
  | _, _, _ => 0

/-- lsb: the lowest set square of a bitboard. -/
def lsbSq (b : Board) : Option Square := (List.finRange 64).find? (fun q => q ∈ b)

/-- msb: the highest set square of a bitboard. -/
def msbSq (b : Board) : Option Square := (List.finRange 64).reverse.find? (fun q => q ∈ b)

/-- backmost_sq(c, b): lsb for White, msb for Black. -/
def backmostSq (c : Color) (b : Board) : Option Square :=
  match c with
  | Color.white => lsbSq b
  | Color.black => msbSq b

/-- frontmost_sq(c, b): msb for White, lsb for Black. -/
def frontmostSq (c : Color) (b : Board) : Option Square :=
  match c with
  | Color.white => msbSq b
  | Color.black => lsbSq b

/-- BlockRanks (pawns.cpp line 376): ranks 2 and 3 seen from our side. -/
def blockRanksBB (us : Color) : Board :=
  Finset.univ.filter (fun t => relativeRank us t = 1 ∨ relativeRank us t = 2)

/-- The edge files A and H (FileABB or FileHBB). -/
def edgeFilesBB : Board :=
  Finset.univ.filter (fun t => fileOf t = 0 ∨ fileOf t = 7)

/-- The pawns visible to evaluate_shelter (pawns.cpp line 378): pawns on the
rank of the king or ahead of it. -/
def shelterPawns (pos : Position) (us : Color) (ksq : Square) : Board :=
  (pos.pieces Color.white PieceType.pawn ∪ pos.pieces Color.black PieceType.pawn) ∩
    (forwardRanksBB us (rankOf ksq) ∪ rankBB (rankOf ksq))

/-- The edge-file blocking test of evaluate_shelter (pawns.cpp lines 384-385):
an enemy pawn on file A or H, on relative rank 2 or 3, standing exactly one
step ahead of the king. -/
def shelterBlockCond (pos : Position) (us : Color) (ksq : Square) : Prop :=
  ((shelterPawns pos us ksq ∩ pos.pieces us.other PieceType.pawn) ∩
    edgeFilesBB ∩ blockRanksBB us ∩ upBB us ksq).Nonempty

instance (pos : Position) (us : Color) (ksq : Square) : Decidable (shelterBlockCond pos us ksq) := by
  unfold shelterBlockCond; infer_instance

/-- One iteration of the file loop of evaluate_shelter (pawns.cpp lines
388-401) for file f. -/
def shelterFileTerm (pos : Position) (us : Color) (ksq : Square) (f : Nat) : Int :=
  let our := shelterPawns pos us ksq ∩ pos.pieces us PieceType.pawn ∩ fileBB f
  let their := shelterPawns pos us ksq ∩ pos.pieces us.other PieceType.pawn ∩ fileBB f
  let ourRank : Nat := match backmostSq us our with
    | some q => relativeRank us q
    | none => 0
  let theirRank : Nat := match frontmostSq us.other their with
    | some q => relativeRank us q
    | none => 0
  let d := min f (7 - f)
  ShelterStrength d ourRank -
    (if ourRank ≠ 0 ∨ theirRank ≠ 0 then
       StormDanger (decide (0 < ourRank ∧ (ourRank : Int) = (theirRank : Int) - 1)) d theirRank
     else 0)

/-- The base term of evaluate_shelter (pawns.cpp line 382): 5 when an own
pawn stands on the king file, otherwise -5. -/
def shelterBase (pos : Position) (us : Color) (ksq : Square) : Int :=
  if (shelterPawns pos us ksq ∩ pos.pieces us PieceType.pawn ∩ fileBB (fileOf ksq)).Nonempty
  then 5 else -5

/-- The three-file loop of evaluate_shelter (pawns.cpp lines 387-401); the
window is centered on the king file clamped to FILE_B..FILE_G. -/
def shelterLoopSum (pos : Position) (us : Color) (ksq : Square) : Int :=
  ((List.range 3).map
    (fun i => shelterFileTerm pos us ksq (max 1 (min 6 (fileOf ksq)) - 1 + i))).sum

/-- Entry::evaluate_shelter without its edge-file blocking term, for stating
how that term contributes. -/
def evaluateShelterNoBlock (pos : Position) (us : Color) (ksq : Square) : Int :=
  shelterBase pos us ksq + shelterLoopSum pos us ksq

/-- Entry::evaluate_shelter (pawns.cpp lines 370-404). -/
def evaluateShelter (pos : Position) (us : Color) (ksq : Square) : Int :=
  shelterBase pos us ksq + (if shelterBlockCond pos us ksq then 374 else 0) +
    shelterLoopSum pos us ksq

/-- The single square two ranks ahead of s, as a bitboard. -/
def upTwoBB (c : Color) (s : Square) : Board :=
  Finset.univ.filter (fun t => fileOf t = fileOf s ∧ rankUpTwo c (rankOf s) (rankOf t))

/-- Condition (ii) as the claim words it: the only stopper is the single enemy
pawn directly two ranks ahead, the pawn stands on relative rank 5 or beyond,
and every push-through square is defended by at most one enemy pawn.  Stated
for comparison with the code; the code tests the square one rank ahead and an
existential over the push-through squares. -/
def passedCondIISpecC2 (pos : Position) (us : Color) (s : Square) : Prop :=
  stoppersBB pos us s = upTwoBB us s ∧ 4 ≤ relativeRank us s ∧
    ∀ q ∈ shiftUpBB us (supportedBB pos us s) \ theirPawns pos us,
      (theirPawns pos us ∩ pawnAttacksSq us q).card ≤ 1

instance (pos : Position) (us : Color) (s : Square) : Decidable (passedCondIISpecC2 pos us s) := by
  unfold passedCondIISpecC2; infer_instance

/-- The protected-passed condition as the claim words it: the pawn is passed
by the corridor test (no enemy pawn in its corridor) and one of the two
squares diagonally one step behind it holds an own pawn.  Stated for
comparison with the code, whose passed1 tests own pawns in the corridor. -/
def protectedClaimCondC3 (pos : Position) (us : Color) (s : Square) : Prop :=
  passedPawnMaskBB us s ∩ theirPawns pos us = ∅ ∧
    ∃ t : Square, adjFile (fileOf s) (fileOf t) ∧ rankUpOne us (rankOf t) (rankOf s) ∧
      pos.board t = some (us, PieceType.pawn)

instance (pos : Position) (us : Color) (s : Square) : Decidable (protectedClaimCondC3 pos us s) := by
  unfold protectedClaimCondC3; infer_instance

/-- The Connected table cell as the claim words it: rank is the 1-indexed
board rank, seed is indexed by that rank, the right shift covers the whole
sum including the 17 * support term, and eg is v * (rank - 2) / 4. -/
def connectedSpecC4 (opposed phalanx : Bool) (support rank : Nat) : Score :=
  let seed1 : Nat → Int := fun i => Seed (i - 1)
  let v : Int :=
    Int.tdiv
      (17 * support +
        (seed1 rank + (if phalanx then Int.tdiv (seed1 (rank + 1) - seed1 rank) 2 else 0)))
      (2 ^ (if opposed then 1 else 0))
  ⟨v, Int.tdiv (v * ((rank : Int) - 2)) 4⟩

/-- The Connected table cell with the two flaws of the claim repaired: the
shift covers only the seed part, and the endgame factor is the rank enum
minus 2, i.e. the 1-indexed board rank minus 3 (C truncating division). -/
def connectedAmendedC4 (opposed phalanx : Bool) (support rank : Nat) : Score :=
  let seed1 : Nat → Int := fun i => Seed (i - 1)
  let v : Int :=
    17 * support +
      Int.tdiv (seed1 rank + (if phalanx then Int.tdiv (seed1 (rank + 1) - seed1 rank) 2 else 0))
        (2 ^ (if opposed then 1 else 0))
  ⟨v, Int.tdiv (v * ((rank : Int) - 3)) 4⟩

/-- Square e5 = 36. -/
def sqE5 : Square := ⟨36, by omega⟩

/-- Square c4 = 26. -/
def sqC4 : Square := ⟨26, by omega⟩

/-- Square d5 = 35. -/
def sqD5 : Square := ⟨35, by omega⟩

/-- Square a2 = 8. -/
def sqA2 : Square := ⟨8, by omega⟩

/-- Square e7 = 52. -/
def sqE7 : Square := ⟨52, by omega⟩

/-- Square e2 = 12. -/
def sqE2 : Square := ⟨12, by omega⟩

/-- White pawns e5 and d4, Black pawn e6: the e5 pawn fails condition (i)
(its stopper e6 is neither lever nor lever push) and is marked passed by the
else branch, whose stopper stands one rank ahead, not two. -/
def posC2 : Position where
  board := fun s =>
    if s.val = 36 ∨ s.val = 27 then some (Color.white, PieceType.pawn)
    else if s.val = 44 then some (Color.black, PieceType.pawn)
    else none
  pawnKey := 0

/-- White pawns c4 and b3, no enemy pawns: c4 is passed by the corridor test
and protected by b3, yet passed1 of the code is false for c4. -/
def posC3 : Position where
  board := fun s =>
    if s.val = 26 ∨ s.val = 17 then some (Color.white, PieceType.pawn)
    else none
  pawnKey := 0

/-- White pawns c4 and d5 with kings e1 and e8, no enemy pawns: both pawns are
genuinely passed and adjacent, yet passed1 of d5 is false, so the second pass
adds nothing. -/
def posC6 : Position where
  board := fun s =>
    if s.val = 26 ∨ s.val = 35 then some (Color.white, PieceType.pawn)
    else if s.val = 4 then some (Color.white, PieceType.king)
    else if s.val = 60 then some (Color.black, PieceType.king)
    else none
  pawnKey := 0

/-- A lone Black pawn on a3; the White king stands on a2 for the shelter
comparison. -/
def posC5With : Position where
  board := fun s =>
    if s.val = 16 then some (Color.black, PieceType.pawn) else none
  pawnKey := 0

/-- The same position without the a3 pawn. -/
def posC5Without : Position where
  board := fun _ => none
  pawnKey := 0

/-- Kings only: White has no pawns. -/
def posC8 : Position where
  board := fun s =>
    if s.val = 4 then some (Color.white, PieceType.king)
    else if s.val = 60 then some (Color.black, PieceType.king)
    else none
  pawnKey := 0

/-- Kings e1 and e8, a Black pawn on e7 (the Black second rank) and a White
pawn on e2 (the White second rank). -/
def posC9 : Position where
  board := fun s =>
    if s.val = 4 then some (Color.white, PieceType.king)
    else if s.val = 60 then some (Color.black, PieceType.king)
    else if s.val = 52 then some (Color.black, PieceType.pawn)
    else if s.val = 12 then some (Color.white, PieceType.pawn)
    else none
  pawnKey := 0

/-- Kings e1 and e8, a White pawn b2 and a Black pawn c7, for the mirror
witness. -/
def posC7 : Position where
  board := fun s =>
    if s.val = 4 then some (Color.white, PieceType.king)
    else if s.val = 60 then some (Color.black, PieceType.king)
    else if s.val = 9 then some (Color.white, PieceType.pawn)
    else if s.val = 50 then some (Color.black, PieceType.pawn)
    else none
  pawnKey := 0

/-- Exactly one king of color c stands on the board (the §7 validity
assumption behind the king-locating scan). -/
def uniqueKing (pos : Position) (c : Color) : Prop :=
  ∃ k : Square, pos.board k = some (c, PieceType.king) ∧
    ∀ t : Square, pos.board t = some (c, PieceType.king) → t = k

instance (pos : Position) (c : Color) : Decidable (uniqueKing pos c) := by
  unfold uniqueKing; infer_instance

/-- The vertical board flip: same file, rank r becomes rank 7 - r. -/
def flipSq (s : Square) : Square :=
  ⟨8 * (7 - rankOf s) + fileOf s, by unfold rankOf fileOf; omega⟩

/-- The flip of a bitboard. -/
def flipBB (b : Board) : Board := Finset.univ.filter (fun t => flipSq t ∈ b)

/-- The mirrored position: flip the board vertically and swap the colors of
all pieces.  The pawn key is an opaque external hash, kept unchanged. -/
def mirror (pos : Position) : Position where
  board := fun t => (pos.board (flipSq t)).map (fun p => (p.1.other, p.2))
  pawnKey := pos.pawnKey

theorem fileOf_lt (s : Square) : fileOf s < 8 := by
  unfold fileOf
  omega

theorem rankOf_lt (s : Square) : rankOf s < 8 := by
  unfold rankOf
  omega

theorem fileOf_mkSq (f r : Nat) : fileOf (mkSq f r) = f % 8 := by
  unfold fileOf mkSq
  simp
  omega

theorem rankOf_mkSq (f r : Nat) : rankOf (mkSq f r) = r % 8 := by
  unfold rankOf mkSq
  simp
  omega

theorem mkSq_eta (t : Square) : mkSq (fileOf t) (rankOf t) = t := by
  unfold mkSq fileOf rankOf
  apply Fin.ext
  simp
  omega

/-- Claim C1: probe returns a record whose key equals the pawn key of the
position; on a hit the stored record is returned unchanged with the
recomputation flag false; on a miss the classifier output for both colors
together with key, openFiles and asymmetry is stored and returned with the
flag true.  A record with a mismatched key is never returned. -/
theorem probe_cache_contract (pos : Position) (e : Entry) :
    (probe pos e).1.key = pos.pawnKey ∧
    ((probe pos e).2 = false ↔ e.key = pos.pawnKey) ∧
    probe pos e =
      (if e.key = pos.pawnKey then (e, false) else (computeEntry pos, true)) ∧
    (computeEntry pos).key = pos.pawnKey ∧
    (∀ c, (computeEntry pos).scores c = (evaluateSide pos c).score) ∧
    (computeEntry pos).openFiles =
      ((evaluateSide pos Color.white).semiopenFiles ∩
        (evaluateSide pos Color.black).semiopenFiles).card ∧
    (computeEntry pos).asymmetry =
      (((evaluateSide pos Color.white).passedPawns ∪
          (evaluateSide pos Color.black).passedPawns) ∪
        maskToRank1 (maskXor (evaluateSide pos Color.white).semiopenFiles
          (evaluateSide pos Color.black).semiopenFiles)).card := by
  refine ⟨?_, ?_, rfl, rfl, ?_, rfl, rfl⟩
  · unfold probe
    by_cases h : e.key = pos.pawnKey
    · simp [h]
    · simp [h, computeEntry]
  · unfold probe
    by_cases h : e.key = pos.pawnKey
    · simp [h]
    · simp [h]
  · intro c
    cases c <;> rfl

/-- Claim C2, counterexample: White pawns e5 and d4 against a Black pawn e6.
The e5 pawn fails condition (i) and the code marks it passed, although its
only stopper stands one rank ahead, not two as the claim requires, so the
claimed equivalence fails. -/
theorem passed_rule2_counterexample :
    ¬ passedCondI posC2 Color.white sqE5 ∧
    passedMark posC2 Color.white sqE5 = true ∧
    ¬ passedCondIISpecC2 posC2 Color.white sqE5 := by decide

/-- Claim C2, amended: a pawn that fails condition (i) is marked passed
exactly when its only stopper is the single enemy pawn directly one rank
ahead, it stands on relative rank 5 or beyond, and some square one step ahead
of a supporting pawn, not occupied by an enemy pawn, is attacked by at most
one enemy pawn. -/
theorem passed_rule2_amended (pos : Position) (us : Color) (s : Square)
    (h : ¬ passedCondI pos us s) :
    s ∈ passedBB pos us ↔
      s ∈ ourPawns pos us ∧ passedCondIIGuard pos us s ∧ passedCondIIBody pos us s := by
  unfold passedBB passedMark
  rw [Finset.mem_filter]
  rw [if_neg h]
  by_cases hg : passedCondIIGuard pos us s
  · simp [hg]
  · simp [hg]

/-- Claim C2, witness: the amended equivalence applied to the concrete
position marks e5 passed. -/
theorem passed_rule2_amended_witness : sqE5 ∈ passedBB posC2 Color.white :=
  (passed_rule2_amended posC2 Color.white sqE5 (by decide)).mpr (by decide)

/-- Claim C4, counterexample: at opposed = 1, phalanx = 0, support = 1 and
board rank 2 the table holds ScorePair(23, -5): the shift does not cover the
17 * support term (23 = 17 + 13 >> 1, not (17 + 13) >> 1 = 15) and the
endgame factor is rank enum - 2 = -1, not board rank - 2 = 0. -/
theorem connected_table_counterexample :
    Connected true false 1 1 ≠ connectedSpecC4 true false 1 2 ∧
    Connected true false 1 1 = ⟨23, -5⟩ ∧
    connectedSpecC4 true false 1 2 = ⟨15, 0⟩ := by decide

/-- Claim C4, amended: over the whole table, the cell for a 1-indexed board
rank equals the formula with the shift covering only the seed part and the
endgame factor board rank - 3 (the rank enum minus 2), with C truncating
division. -/
theorem connected_table_amended :
    ∀ (op ph : Bool) (support : Fin 3) (r : Fin 6),
      Connected op ph support.val (r.val + 1) =
        connectedAmendedC4 op ph support.val (r.val + 2) := by decide

/-- Claim C5, counterexample: Black pawn a3 against the White king on a2
triggers the edge-file blocking test, yet the returned shelter value is not
lower than without that pawn: the code adds 374. -/
theorem shelter_edge_block_counterexample :
    shelterBlockCond posC5With Color.white sqA2 ∧
    ¬ evaluateShelter posC5With Color.white sqA2 <
        evaluateShelter posC5Without Color.white sqA2 := by decide

/-- Claim C5, amended: the edge-file blocking test adds a large bonus of 374
to the shelter value, and in the exhibited configuration the position with
the blocking enemy pawn scores strictly higher (260 against -7) than the
identical position without it. -/
theorem shelter_edge_block_amended :
    (∀ (pos : Position) (us : Color) (ksq : Square),
      evaluateShelter pos us ksq =
        evaluateShelterNoBlock pos us ksq +
          (if shelterBlockCond pos us ksq then 374 else 0)) ∧
    shelterBlockCond posC5With Color.white sqA2 ∧
    evaluateShelter posC5With Color.white sqA2 = 260 ∧
    evaluateShelter posC5Without Color.white sqA2 = -7 ∧
    evaluateShelter posC5Without Color.white sqA2 <
      evaluateShelter posC5With Color.white sqA2 := by
  refine ⟨?_, by decide, by decide, by decide, by decide⟩
  intro pos us ksq
  unfold evaluateShelter evaluateShelterNoBlock
  ring

/-- Claim C9: in a structurally valid position (kings present and unique)
with a Black pawn on its second rank (absolute rank 7, enum 6), the
protected-passed computation of the Black classifier reaches the
unconditional assert(false) of the rpp branch; with assertions compiled out
the rank is unchanged and the check is silently skipped.  A White pawn on its
second rank skips the check too, and no White rank ever raises the flag. -/
theorem rank7_black_assert_reachable :
    posC9.board sqE7 = some (Color.black, PieceType.pawn) ∧
    uniqueKing posC9 Color.white ∧ uniqueKing posC9 Color.black ∧
    rankOf sqE7 = 6 ∧ relativeRank Color.black sqE7 = 1 ∧
    (rppCalc Color.black (rankOf sqE7)).2 = true ∧
    (rppCalc Color.black (rankOf sqE7)).1 = rankOf sqE7 ∧
    protectedTerm posC9 Color.black sqE7 = 0 ∧
    posC9.board sqE2 = some (Color.white, PieceType.pawn) ∧
    relativeRank Color.white sqE2 = 1 ∧
    (rppCalc Color.white (rankOf sqE2)).2 = false ∧
    protectedTerm posC9 Color.white sqE2 = 0 ∧
    (∀ r : Fin 8, (rppCalc Color.white r.val).2 = false) := by decide

/-- Claim C10: whenever a king of the evaluated color is on the board, the
linear scan from A1 of the connected-passed second pass finds a king square
and therefore terminates within the board. -/
theorem king_scan_terminates (pos : Position) (us : Color)
    (h : ∃ k : Square, pos.board k = some (us, PieceType.king)) :
    ∃ k : Square, firstKing pos us = some k ∧
      pos.board k = some (us, PieceType.king) := by
  obtain ⟨k, hk⟩ := h
  have hsome : ((List.finRange 64).find?
      (fun q => pos.board q = some (us, PieceType.king))).isSome := by
    rw [List.find?_isSome]
    exact ⟨k, List.mem_finRange k, by simp [hk]⟩
  obtain ⟨k2, hk2⟩ := Option.isSome_iff_exists.mp hsome
  refine ⟨k2, hk2, ?_⟩
  have := List.find?_some hk2
  simpa using this

/-- Claim C10, witness: the scan finds the White king of the concrete
position. -/
theorem king_scan_terminates_witness :
    ∃ k : Square, firstKing posC8 Color.white = some k ∧
      posC8.board k = some (Color.white, PieceType.king) :=
  king_scan_terminates posC8 Color.white (by decide)

theorem rankUpOne_inj (us : Color) (a b r : Nat) (ha : rankUpOne us a r)
    (hb : rankUpOne us b r) : a = b := by
  cases us <;> (unfold rankUpOne at ha hb; omega)

theorem fileMinus_ne_iff (f : Nat) : fileMinus f ≠ f ↔ 0 < f := by
  unfold fileMinus
  by_cases h : 0 < f
  · rw [if_pos h]; omega
  · rw [if_neg h]; omega

theorem filePlus_ne_iff (f : Nat) : filePlus f ≠ f ↔ f < 7 := by
  unfold filePlus
  by_cases h : f < 7
  · rw [if_pos h]; omega
  · rw [if_neg h]; omega

/-- The two diagonal board lookups of the protected-passed block describe
exactly the squares one step behind s on an adjacent file. -/
theorem diag_exists_iff (pos : Position) (us : Color) (s : Square) (rpp : Nat)
    (h1 : rankUpOne us rpp (rankOf s)) (h2 : rpp < 8) :
    ((fileMinus (fileOf s) ≠ fileOf s ∧
        pos.board (mkSq (fileMinus (fileOf s)) rpp) = some (us, PieceType.pawn)) ∨
      (filePlus (fileOf s) ≠ fileOf s ∧
        pos.board (mkSq (filePlus (fileOf s)) rpp) = some (us, PieceType.pawn))) ↔
      (∃ t : Square, adjFile (fileOf s) (fileOf t) ∧
        rankUpOne us (rankOf t) (rankOf s) ∧
        pos.board t = some (us, PieceType.pawn)) := by
  have hfb : fileOf s < 8 := fileOf_lt s
  constructor
  · rintro (⟨hne, hb⟩ | ⟨hne, hb⟩)
    · have h0 : 0 < fileOf s := (fileMinus_ne_iff (fileOf s)).mp hne
      have hfm : fileMinus (fileOf s) = fileOf s - 1 := by
        unfold fileMinus; rw [if_pos h0]
      refine ⟨mkSq (fileMinus (fileOf s)) rpp, ?_, ?_, hb⟩
      · rw [fileOf_mkSq, hfm]
        unfold adjFile
        omega
      · rw [rankOf_mkSq, Nat.mod_eq_of_lt h2]
        exact h1
    · have h7 : fileOf s < 7 := (filePlus_ne_iff (fileOf s)).mp hne
      have hfp : filePlus (fileOf s) = fileOf s + 1 := by
        unfold filePlus; rw [if_pos h7]
      refine ⟨mkSq (filePlus (fileOf s)) rpp, ?_, ?_, hb⟩
      · rw [fileOf_mkSq, hfp]
        unfold adjFile
        omega
      · rw [rankOf_mkSq, Nat.mod_eq_of_lt h2]
        exact h1
  · rintro ⟨t, hadj, hstep, hb⟩
    have hrt : rankOf t = rpp := rankUpOne_inj us (rankOf t) rpp (rankOf s) hstep h1
    have hft : fileOf t < 8 := fileOf_lt t
    rcases hadj with hl | hr
    · left
      have h0 : 0 < fileOf s := by omega
      have hfm : fileMinus (fileOf s) = fileOf t := by
        unfold fileMinus; rw [if_pos h0]; omega
      refine ⟨(fileMinus_ne_iff (fileOf s)).mpr h0, ?_⟩
      rw [hfm, ← hrt, mkSq_eta]
      exact hb
    · right
      have h7 : fileOf s < 7 := by omega
      have hfp : filePlus (fileOf s) = fileOf t := by
        unfold filePlus; rw [if_pos h7]; omega
      refine ⟨(filePlus_ne_iff (fileOf s)).mpr h7, ?_⟩
      rw [hfp, ← hrt, mkSq_eta]
      exact hb

/-- Claim C3, counterexample: White pawns c4 and b3, no enemy pawns.  The c4
pawn is passed by the corridor test and protected by b3, yet the code adds no
bonus, because its passed1 looks for own pawns inside the corridor. -/
theorem protected_passed_counterexample :
    protectedClaimCondC3 posC3 Color.white sqC4 ∧
    protectedTerm posC3 Color.white sqC4 = 0 ∧
    ProtectedPassedPawn ≠ (0 : Score) := by decide

/-- Characterization of the protected-passed contribution: the bonus is added
exactly when passed1 of the code holds, the rank one step behind exists
inside the board clamp, and an own pawn stands diagonally one step behind. -/
theorem protectedTerm_eq (pos : Position) (us : Color) (s : Square) :
    protectedTerm pos us s =
      (if passed1P pos us s ∧
          ((us = Color.white ∧ 1 < rankOf s) ∨ (us = Color.black ∧ rankOf s < 6)) ∧
          (∃ t : Square, adjFile (fileOf s) (fileOf t) ∧
            rankUpOne us (rankOf t) (rankOf s) ∧
            pos.board t = some (us, PieceType.pawn))
        then ProtectedPassedPawn else 0) := by
  have hrb : rankOf s < 8 := rankOf_lt s
  unfold protectedTerm
  dsimp only
  cases us
  case white =>
    by_cases hr : 1 < rankOf s
    · have hrpp : (rppCalc Color.white (rankOf s)).1 = rankOf s - 1 := by
        unfold rppCalc; rw [if_pos hr]
      rw [hrpp, if_pos (by omega : rankOf s - 1 ≠ rankOf s)]
      have hdiag := diag_exists_iff pos Color.white s (rankOf s - 1)
        (by unfold rankUpOne; omega) (by omega)
      apply if_congr _ rfl rfl
      constructor
      · rintro ⟨hp, hd⟩
        exact ⟨hp, Or.inl ⟨rfl, hr⟩, hdiag.mp hd⟩
      · rintro ⟨hp, _, hd⟩
        exact ⟨hp, hdiag.mpr hd⟩
    · have hrpp : (rppCalc Color.white (rankOf s)).1 = rankOf s := by
        unfold rppCalc; rw [if_neg hr]
      rw [hrpp, if_neg (by omega : ¬ rankOf s ≠ rankOf s)]
      simp [hr]
  case black =>
    by_cases hr : rankOf s < 6
    · have hrpp : (rppCalc Color.black (rankOf s)).1 = rankOf s + 1 := by
        unfold rppCalc; rw [if_pos hr]
      rw [hrpp, if_pos (by omega : rankOf s + 1 ≠ rankOf s)]
      have hdiag := diag_exists_iff pos Color.black s (rankOf s + 1)
        (by unfold rankUpOne; omega) (by omega)
      apply if_congr _ rfl rfl
      constructor
      · rintro ⟨hp, hd⟩
        exact ⟨hp, Or.inr ⟨rfl, hr⟩, hdiag.mp hd⟩
      · rintro ⟨hp, _, hd⟩
        exact ⟨hp, hdiag.mpr hd⟩
    · have hrpp : (rppCalc Color.black (rankOf s)).1 = rankOf s := by
        unfold rppCalc; rw [if_neg hr]
      rw [hrpp, if_neg (by omega : ¬ rankOf s ≠ rankOf s)]
      simp [hr]

/-- Claim C3, amended: the protected-passed bonus is added exactly when
passed1 of the code holds, that is at least one OWN pawn stands in the
corridor of s (not the corridor test of the claim), the rank one step behind
exists inside the board clamp (White above rank 2, Black below rank 7), and an
own pawn stands diagonally one step behind s. -/
theorem protected_passed_amended (pos : Position) (us : Color) (s : Square) :
    protectedTerm pos us s =
      (if passed1P pos us s ∧
          ((us = Color.white ∧ 1 < rankOf s) ∨ (us = Color.black ∧ rankOf s < 6)) ∧
          (∃ t : Square, adjFile (fileOf s) (fileOf t) ∧
            rankUpOne us (rankOf t) (rankOf s) ∧
            pos.board t = some (us, PieceType.pawn))
        then ProtectedPassedPawn else 0) :=
  protectedTerm_eq pos us s

/-- The break-and-continue partner loop of the second pass computes an
existential over the six scanned ranks. -/
theorem scanPassed0_iff (pos : Position) (us : Color) (f0 : Nat) :
    scanPassed0 pos us f0 = true ↔
      ∃ r : Fin 6, pos.board (mkSq f0 (r.val + 1)) = some (us, PieceType.pawn) ∧
        mkSq f0 (r.val + 1) ∈ passedBB pos us := by
  unfold scanPassed0
  rw [List.any_eq_true]
  constructor
  · rintro ⟨i, hmem, hp⟩
    have hi : i < 6 := List.mem_range.mp hmem
    exact ⟨⟨i, hi⟩, of_decide_eq_true hp⟩
  · rintro ⟨r, hp⟩
    exact ⟨r.val, List.mem_range.mpr r.isLt, decide_eq_true hp⟩

/-- Claim C6, counterexample: White pawns c4 and d5 (kings e1 and e8), both
genuinely passed and on adjacent files, yet the second pass adds nothing for
d5: its gate passed1 demands an own pawn inside the corridor of d5. -/
theorem connected_passed_pair_counterexample :
    sqD5 ∈ passedBB posC6 Color.white ∧
    sqC4 ∈ passedBB posC6 Color.white ∧
    fileOf sqC4 + 1 = fileOf sqD5 ∧
    1 ≤ rankOf sqC4 ∧ rankOf sqC4 ≤ 6 ∧
    posC6.board sqC4 = some (Color.white, PieceType.pawn) ∧
    connectedPassedTerm posC6 Color.white sqD5 = 0 ∧
    PawnScoresConnectedPassed ≠ (0 : Score) := by decide

/-- Characterization of the second-pass contribution of one pawn. -/
theorem connectedPassedTerm_eq (pos : Position) (us : Color) (s : Square) :
    connectedPassedTerm pos us s =
      (if 0 < fileOf s ∧ passed1P pos us s ∧
          (∃ r : Fin 6,
            pos.board (mkSq (fileOf s - 1) (r.val + 1)) = some (us, PieceType.pawn) ∧
            mkSq (fileOf s - 1) (r.val + 1) ∈ passedBB pos us)
        then PawnScoresConnectedPassed +
          (match firstKing pos us with
            | some k =>
                if fileOf s - 1 ≤ fileOf k ∧ fileOf k ≤ min (fileOf s + 1) 7
                then KingSafetyCompensation else 0
            | none => 0)
        else 0) := by
  have hfb : fileOf s < 8 := fileOf_lt s
  unfold connectedPassedTerm
  dsimp only
  by_cases h0 : 0 < fileOf s
  · have hfm : fileMinus (fileOf s) = fileOf s - 1 := by
      unfold fileMinus; rw [if_pos h0]
    have hfp : filePlus (fileOf s) = min (fileOf s + 1) 7 := by
      unfold filePlus
      by_cases h7 : fileOf s < 7
      · rw [if_pos h7]; omega
      · rw [if_neg h7]; omega
    rw [hfm, hfp]
    apply if_congr _ rfl rfl
    constructor
    · rintro ⟨hne, hp, hs⟩
      exact ⟨h0, hp, (scanPassed0_iff pos us (fileOf s - 1)).mp hs⟩
    · rintro ⟨hx, hp, hex⟩
      exact ⟨by omega, hp, (scanPassed0_iff pos us (fileOf s - 1)).mpr hex⟩
  · have hf0 : fileOf s = 0 := by omega
    have hfm : fileMinus (fileOf s) = fileOf s := by
      unfold fileMinus; rw [if_neg h0]
    rw [hfm]
    simp [h0]

/-- Claim C6, amended: the second-pass contribution of a pawn s is the
connected-passed bonus exactly when s is not on file A, passed1 of the code
holds for s (an own pawn in its corridor, not s being passed), and some own
pawn on ranks 2..7 of the file toward A is marked passed; the king-safety
compensation is added exactly when the file of the scanned king lies in the
inclusive span from file f - 1 to file f + 1 clamped at H, not f. -/
theorem connected_passed_pair_amended (pos : Position) (us : Color) (s : Square) :
    connectedPassedTerm pos us s =
      (if 0 < fileOf s ∧ passed1P pos us s ∧
          (∃ r : Fin 6,
            pos.board (mkSq (fileOf s - 1) (r.val + 1)) = some (us, PieceType.pawn) ∧
            mkSq (fileOf s - 1) (r.val + 1) ∈ passedBB pos us)
        then PawnScoresConnectedPassed +
          (match firstKing pos us with
            | some k =>
                if fileOf s - 1 ≤ fileOf k ∧ fileOf k ≤ min (fileOf s + 1) 7
                then KingSafetyCompensation else 0
            | none => 0)
        else 0) :=
  connectedPassedTerm_eq pos us s

/-- Claim C8: a color without pawns gets the zero score, empty passedPawns,
pawnAttacks and attackSpan, weakUnopposed zero, and a semi-open-files mask
with all eight file bits set (the value 0xFF = 255). -/
theorem zero_pawns_classifier (pos : Position) (us : Color)
    (h : ourPawns pos us = ∅) :
    (evaluateSide pos us).score = 0 ∧
    (evaluateSide pos us).passedPawns = ∅ ∧
    (evaluateSide pos us).pawnAttacks = ∅ ∧
    (evaluateSide pos us).pawnAttacksSpan = ∅ ∧
    (evaluateSide pos us).weakUnopposed = 0 ∧
    (evaluateSide pos us).semiopenFiles = Finset.univ ∧
    maskVal (evaluateSide pos us).semiopenFiles = 255 := by
  have hmask : maskVal (Finset.univ : Finset (Fin 8)) = 255 := by decide
  unfold evaluateSide
  dsimp only
  refine ⟨?_, ?_, ?_, ?_, ?_, ?_, ?_⟩
  · simp only [h, Finset.sum_empty, add_zero]
  · unfold passedBB
    rw [h, Finset.filter_empty]
  · unfold pawnAttacksSetBB
    rw [h]
    ext t
    simp
  · unfold spanUnionBB
    rw [h]
    ext t
    simp
  · simp only [h, Finset.sum_empty]
  · rw [h, Finset.image_empty, Finset.sdiff_empty]
  · rw [h, Finset.image_empty, Finset.sdiff_empty]
    exact hmask

/-- Claim C8, witness: the classifier output for White in the kings-only
position. -/
theorem zero_pawns_classifier_witness :
    (evaluateSide posC8 Color.white).score = 0 ∧
    (evaluateSide posC8 Color.white).passedPawns = ∅ ∧
    (evaluateSide posC8 Color.white).pawnAttacks = ∅ ∧
    (evaluateSide posC8 Color.white).pawnAttacksSpan = ∅ ∧
    (evaluateSide posC8 Color.white).weakUnopposed = 0 ∧
    (evaluateSide posC8 Color.white).semiopenFiles = Finset.univ ∧
    maskVal (evaluateSide posC8 Color.white).semiopenFiles = 255 :=
  zero_pawns_classifier posC8 Color.white (by decide)

theorem Color.other_other (c : Color) : c.other.other = c := by
  cases c <;> rfl

theorem flipSq_flipSq (s : Square) : flipSq (flipSq s) = s := by
  have := s.isLt
  apply Fin.ext
  show 8 * (7 - (8 * (7 - s.val / 8) + s.val % 8) / 8) +
      (8 * (7 - s.val / 8) + s.val % 8) % 8 = s.val
  omega

theorem fileOf_flip (s : Square) : fileOf (flipSq s) = fileOf s := by
  have := s.isLt
  show (8 * (7 - s.val / 8) + s.val % 8) % 8 = s.val % 8
  omega

theorem rankOf_flip (s : Square) : rankOf (flipSq s) = 7 - rankOf s := by
  have := s.isLt
  show (8 * (7 - s.val / 8) + s.val % 8) / 8 = 7 - s.val / 8
  omega

theorem flipSq_inj : Function.Injective flipSq := by
  intro a b h
  have h2 : flipSq (flipSq a) = flipSq (flipSq b) := by rw [h]
  rwa [flipSq_flipSq, flipSq_flipSq] at h2

theorem mem_flipBB (b : Board) (t : Square) : t ∈ flipBB b ↔ flipSq t ∈ b := by
  unfold flipBB
  simp

theorem flipBB_flipBB (b : Board) : flipBB (flipBB b) = b := by
  ext t
  rw [mem_flipBB, mem_flipBB, flipSq_flipSq]

theorem flipBB_image (b : Board) : flipBB b = b.image flipSq := by
  ext t
  rw [mem_flipBB, Finset.mem_image]
  constructor
  · intro h
    exact ⟨flipSq t, h, flipSq_flipSq t⟩
  · rintro ⟨a, ha, rfl⟩
    rwa [flipSq_flipSq]

theorem flipBB_card (b : Board) : (flipBB b).card = b.card := by
  rw [flipBB_image]
  exact Finset.card_image_of_injective b flipSq_inj

theorem flipBB_inter (a b : Board) : flipBB (a ∩ b) = flipBB a ∩ flipBB b := by
  ext t
  simp [mem_flipBB]

theorem flipBB_union (a b : Board) : flipBB (a ∪ b) = flipBB a ∪ flipBB b := by
  ext t
  simp [mem_flipBB]

theorem flipBB_sdiff (a b : Board) : flipBB (a \ b) = flipBB a \ flipBB b := by
  ext t
  simp [mem_flipBB]

theorem flipBB_bxor (a b : Board) : flipBB (bxor a b) = bxor (flipBB a) (flipBB b) := by
  unfold bxor
  rw [flipBB_union, flipBB_sdiff, flipBB_sdiff]

theorem flipBB_empty : flipBB (∅ : Board) = ∅ := by
  ext t
  simp [mem_flipBB]

theorem flipBB_eq_empty (b : Board) : flipBB b = ∅ ↔ b = ∅ := by
  constructor
  · intro h
    have h2 := congrArg flipBB h
    rwa [flipBB_flipBB, flipBB_empty] at h2
  · intro h
    rw [h, flipBB_empty]

theorem flipBB_nonempty (b : Board) : (flipBB b).Nonempty ↔ b.Nonempty := by
  rw [Finset.nonempty_iff_ne_empty, Finset.nonempty_iff_ne_empty, ne_eq, ne_eq,
    flipBB_eq_empty]

theorem flipBB_eq_iff (a b : Board) : flipBB a = flipBB b ↔ a = b := by
  constructor
  · intro h
    have h2 := congrArg flipBB h
    rwa [flipBB_flipBB, flipBB_flipBB] at h2
  · intro h
    rw [h]

theorem mirror_board_iff (pos : Position) (c : Color) (pt : PieceType) (t : Square) :
    (mirror pos).board t = some (c, pt) ↔
      pos.board (flipSq t) = some (c.other, pt) := by
  show (pos.board (flipSq t)).map (fun p => (p.1.other, p.2)) = some (c, pt) ↔ _
  cases h : pos.board (flipSq t) with
  | none => simp
  | some p =>
      obtain ⟨pc, ppt⟩ := p
      cases pc <;> cases c <;> simp [Color.other]

theorem pieces_mirror (pos : Position) (c : Color) (pt : PieceType) :
    (mirror pos).pieces c pt = flipBB (pos.pieces c.other pt) := by
  ext t
  rw [mem_flipBB]
  unfold Position.pieces
  simp only [Finset.mem_filter, Finset.mem_univ, true_and]
  exact mirror_board_iff pos c pt t

theorem ourPawns_mirror (pos : Position) (c : Color) :
    ourPawns (mirror pos) c = flipBB (ourPawns pos c.other) :=
  pieces_mirror pos c PieceType.pawn

theorem theirPawns_mirror (pos : Position) (c : Color) :
    theirPawns (mirror pos) c = flipBB (theirPawns pos c.other) :=
  pieces_mirror pos c.other PieceType.pawn

theorem aheadRank_flipA (c : Color) (rs rt : Nat) (hs : rs < 8) (ht : rt < 8) :
    aheadRank c (7 - rs) rt ↔ aheadRank c.other rs (7 - rt) := by
  cases c
  · show 7 - rs < rt ↔ 7 - rt < rs
    omega
  · show rt < 7 - rs ↔ rs < 7 - rt
    omega

theorem aheadRank_flip_both (c : Color) (a b : Nat) (ha : a < 8) (hb : b < 8) :
    aheadRank c a b ↔ aheadRank c.other (7 - a) (7 - b) := by
  cases c
  · show a < b ↔ 7 - b < 7 - a
    omega
  · show b < a ↔ 7 - a < 7 - b
    omega

theorem rankUpOne_flipA (c : Color) (rs rt : Nat) (hs : rs < 8) (ht : rt < 8) :
    rankUpOne c (7 - rs) rt ↔ rankUpOne c.other rs (7 - rt) := by
  cases c
  · show rt = (7 - rs) + 1 ↔ (7 - rt) + 1 = rs
    omega
  · show rt + 1 = 7 - rs ↔ 7 - rt = rs + 1
    omega

theorem rankUpOne_flipB (c : Color) (a b : Nat) (ha : a < 8) (hb : b < 8) :
    rankUpOne c a (7 - b) ↔ rankUpOne c.other (7 - a) b := by
  cases c
  · show 7 - b = a + 1 ↔ b + 1 = 7 - a
    omega
  · show (7 - b) + 1 = a ↔ b = (7 - a) + 1
    omega

theorem rankUpOne_flip_both (c : Color) (a b : Nat) (ha : a < 8) (hb : b < 8) :
    rankUpOne c a b ↔ rankUpOne c.other (7 - a) (7 - b) := by
  cases c
  · show b = a + 1 ↔ (7 - b) + 1 = 7 - a
    omega
  · show b + 1 = a ↔ 7 - b = (7 - a) + 1
    omega

theorem rankUpTwo_flipA (c : Color) (rs rt : Nat) (hs : rs < 8) (ht : rt < 8) :
    rankUpTwo c (7 - rs) rt ↔ rankUpTwo c.other rs (7 - rt) := by
  cases c
  · show rt = (7 - rs) + 2 ↔ (7 - rt) + 2 = rs
    omega
  · show rt + 2 = 7 - rs ↔ 7 - rt = rs + 2
    omega

theorem forwardFileBB_flip (c : Color) (s : Square) :
    forwardFileBB c (flipSq s) = flipBB (forwardFileBB c.other s) := by
  ext t
  rw [mem_flipBB]
  unfold forwardFileBB
  simp only [Finset.mem_filter, Finset.mem_univ, true_and]
  rw [fileOf_flip s, fileOf_flip t, rankOf_flip s, rankOf_flip t]
  exact and_congr Iff.rfl
    (aheadRank_flipA c (rankOf s) (rankOf t) (rankOf_lt s) (rankOf_lt t))

theorem pawnAttackSpanBB_flip (c : Color) (s : Square) :
    pawnAttackSpanBB c (flipSq s) = flipBB (pawnAttackSpanBB c.other s) := by
  ext t
  rw [mem_flipBB]
  unfold pawnAttackSpanBB
  simp only [Finset.mem_filter, Finset.mem_univ, true_and]
  rw [fileOf_flip s, fileOf_flip t, rankOf_flip s, rankOf_flip t]
  exact and_congr Iff.rfl
    (aheadRank_flipA c (rankOf s) (rankOf t) (rankOf_lt s) (rankOf_lt t))

theorem passedPawnMaskBB_flip (c : Color) (s : Square) :
    passedPawnMaskBB c (flipSq s) = flipBB (passedPawnMaskBB c.other s) := by
  ext t
  rw [mem_flipBB]
  unfold passedPawnMaskBB
  simp only [Finset.mem_filter, Finset.mem_univ, true_and]
  rw [fileOf_flip s, fileOf_flip t, rankOf_flip s, rankOf_flip t]
  exact and_congr Iff.rfl
    (aheadRank_flipA c (rankOf s) (rankOf t) (rankOf_lt s) (rankOf_lt t))

theorem pawnAttacksSq_flip (c : Color) (s : Square) :
    pawnAttacksSq c (flipSq s) = flipBB (pawnAttacksSq c.other s) := by
  ext t
  rw [mem_flipBB]
  unfold pawnAttacksSq
  simp only [Finset.mem_filter, Finset.mem_univ, true_and]
  rw [fileOf_flip s, fileOf_flip t, rankOf_flip s, rankOf_flip t]
  exact and_congr Iff.rfl
    (rankUpOne_flipA c (rankOf s) (rankOf t) (rankOf_lt s) (rankOf_lt t))

theorem upBB_flip (c : Color) (s : Square) :
    upBB c (flipSq s) = flipBB (upBB c.other s) := by
  ext t
  rw [mem_flipBB]
  unfold upBB
  simp only [Finset.mem_filter, Finset.mem_univ, true_and]
  rw [fileOf_flip s, fileOf_flip t, rankOf_flip s, rankOf_flip t]
  exact and_congr Iff.rfl
    (rankUpOne_flipA c (rankOf s) (rankOf t) (rankOf_lt s) (rankOf_lt t))

theorem upAttacksBB_flip (c : Color) (s : Square) :
    upAttacksBB c (flipSq s) = flipBB (upAttacksBB c.other s) := by
  ext t
  rw [mem_flipBB]
  unfold upAttacksBB
  simp only [Finset.mem_filter, Finset.mem_univ, true_and]
  rw [fileOf_flip s, fileOf_flip t, rankOf_flip s, rankOf_flip t]
  exact and_congr Iff.rfl
    (rankUpTwo_flipA c (rankOf s) (rankOf t) (rankOf_lt s) (rankOf_lt t))

theorem downBB_flip (c : Color) (s : Square) :
    downBB c (flipSq s) = flipBB (downBB c.other s) := by
  ext t
  rw [mem_flipBB]
  unfold downBB
  simp only [Finset.mem_filter, Finset.mem_univ, true_and]
  rw [fileOf_flip s, fileOf_flip t, rankOf_flip s, rankOf_flip t]
  exact and_congr Iff.rfl
    (rankUpOne_flipB c (rankOf t) (rankOf s) (rankOf_lt t) (rankOf_lt s))

theorem downRankBB_flip (c : Color) (s : Square) :
    downRankBB c (flipSq s) = flipBB (downRankBB c.other s) := by
  ext t
  rw [mem_flipBB]
  unfold downRankBB
  simp only [Finset.mem_filter, Finset.mem_univ, true_and]
  rw [rankOf_flip s, rankOf_flip t]
  exact rankUpOne_flipB c (rankOf t) (rankOf s) (rankOf_lt t) (rankOf_lt s)

theorem backwardSpanBB_flip (c : Color) (s : Square) :
    backwardSpanBB c (flipSq s) = flipBB (backwardSpanBB c.other s) := by
  ext t
  rw [mem_flipBB]
  unfold backwardSpanBB
  simp only [Finset.mem_filter, Finset.mem_univ, true_and]
  rw [fileOf_flip s, fileOf_flip t, rankOf_flip s, rankOf_flip t]
  exact and_congr Iff.rfl
    (not_congr (aheadRank_flipA c (rankOf s) (rankOf t) (rankOf_lt s) (rankOf_lt t)))

theorem adjacentFilesBB_flipInv (f : Nat) :
    flipBB (adjacentFilesBB f) = adjacentFilesBB f := by
  ext t
  rw [mem_flipBB]
  unfold adjacentFilesBB
  simp only [Finset.mem_filter, Finset.mem_univ, true_and]
  rw [fileOf_flip t]

theorem rankBB_flip (s : Square) :
    rankBB (rankOf (flipSq s)) = flipBB (rankBB (rankOf s)) := by
  ext t
  rw [mem_flipBB]
  unfold rankBB
  simp only [Finset.mem_filter, Finset.mem_univ, true_and]
  rw [rankOf_flip s, rankOf_flip t]
  have h1 := rankOf_lt s
  have h2 := rankOf_lt t
  omega

theorem darkSquaresBB_flip :
    flipBB darkSquaresBB = Finset.univ \ darkSquaresBB := by
  ext t
  rw [mem_flipBB]
  unfold darkSquaresBB
  simp only [Finset.mem_filter, Finset.mem_univ, true_and, Finset.mem_sdiff]
  rw [fileOf_flip t, rankOf_flip t]
  have h1 := rankOf_lt t
  omega

theorem shiftUpBB_flip (c : Color) (b : Board) :
    shiftUpBB c (flipBB b) = flipBB (shiftUpBB c.other b) := by
  ext t
  rw [mem_flipBB]
  unfold shiftUpBB
  simp only [Finset.mem_filter, Finset.mem_univ, true_and]
  constructor
  · rintro ⟨p, hp, hf, hr⟩
    rw [mem_flipBB] at hp
    refine ⟨flipSq p, hp, ?_, ?_⟩
    · rw [fileOf_flip, fileOf_flip]
      exact hf
    · rw [rankOf_flip, rankOf_flip]
      exact (rankUpOne_flip_both c (rankOf p) (rankOf t) (rankOf_lt p) (rankOf_lt t)).mp hr
  · rintro ⟨p, hp, hf, hr⟩
    refine ⟨flipSq p, ?_, ?_, ?_⟩
    · rw [mem_flipBB, flipSq_flipSq]
      exact hp
    · rw [fileOf_flip]
      rw [fileOf_flip] at hf
      exact hf
    · rw [rankOf_flip] at hr
      rw [rankOf_flip]
      exact (rankUpOne_flipA c (rankOf p) (rankOf t) (rankOf_lt p) (rankOf_lt t)).mpr hr

theorem pawnAttacksSetBB_flip (c : Color) (b : Board) :
    pawnAttacksSetBB c (flipBB b) = flipBB (pawnAttacksSetBB c.other b) := by
  ext t
  rw [mem_flipBB]
  unfold pawnAttacksSetBB
  simp only [Finset.mem_filter, Finset.mem_univ, true_and]
  constructor
  · rintro ⟨p, hp, hf, hr⟩
    rw [mem_flipBB] at hp
    refine ⟨flipSq p, hp, ?_, ?_⟩
    · rw [fileOf_flip, fileOf_flip]
      exact hf
    · rw [rankOf_flip, rankOf_flip]
      exact (rankUpOne_flip_both c (rankOf p) (rankOf t) (rankOf_lt p) (rankOf_lt t)).mp hr
  · rintro ⟨p, hp, hf, hr⟩
    refine ⟨flipSq p, ?_, ?_, ?_⟩
    · rw [mem_flipBB, flipSq_flipSq]
      exact hp
    · rw [fileOf_flip]
      rw [fileOf_flip] at hf
      exact hf
    · rw [rankOf_flip] at hr
      rw [rankOf_flip]
      exact (rankUpOne_flipA c (rankOf p) (rankOf t) (rankOf_lt p) (rankOf_lt t)).mpr hr

theorem spanUnionBB_flip (c : Color) (b : Board) :
    spanUnionBB c (flipBB b) = flipBB (spanUnionBB c.other b) := by
  ext t
  rw [mem_flipBB]
  unfold spanUnionBB
  simp only [Finset.mem_filter, Finset.mem_univ, true_and]
  constructor
  · rintro ⟨p, hp, hf, hr⟩
    rw [mem_flipBB] at hp
    refine ⟨flipSq p, hp, ?_, ?_⟩
    · rw [fileOf_flip, fileOf_flip]
      exact hf
    · rw [rankOf_flip, rankOf_flip]
      exact (aheadRank_flip_both c (rankOf p) (rankOf t) (rankOf_lt p) (rankOf_lt t)).mp hr
  · rintro ⟨p, hp, hf, hr⟩
    refine ⟨flipSq p, ?_, ?_, ?_⟩
    · rw [mem_flipBB, flipSq_flipSq]
      exact hp
    · rw [fileOf_flip]
      rw [fileOf_flip] at hf
      exact hf
    · rw [rankOf_flip] at hr
      rw [rankOf_flip]
      exact (aheadRank_flipA c (rankOf p) (rankOf t) (rankOf_lt p) (rankOf_lt t)).mpr hr

theorem relativeRank_flip (c : Color) (s : Square) :
    relativeRank c (flipSq s) = relativeRank c.other s := by
  have h := rankOf_lt s
  cases c
  · show rankOf (flipSq s) = 7 - rankOf s
    exact rankOf_flip s
  · show 7 - rankOf (flipSq s) = rankOf s
    rw [rankOf_flip]
    omega

theorem opposedP_mirror (pos : Position) (c : Color) (s : Square) :
    opposedP (mirror pos) c (flipSq s) ↔ opposedP pos c.other s := by
  unfold opposedP
  rw [theirPawns_mirror, forwardFileBB_flip, ← flipBB_inter, flipBB_nonempty]

theorem stoppersBB_mirror (pos : Position) (c : Color) (s : Square) :
    stoppersBB (mirror pos) c (flipSq s) = flipBB (stoppersBB pos c.other s) := by
  unfold stoppersBB
  rw [theirPawns_mirror, passedPawnMaskBB_flip, flipBB_inter]

theorem leverBB_mirror (pos : Position) (c : Color) (s : Square) :
    leverBB (mirror pos) c (flipSq s) = flipBB (leverBB pos c.other s) := by
  unfold leverBB
  rw [theirPawns_mirror, pawnAttacksSq_flip, flipBB_inter]

theorem leverPushBB_mirror (pos : Position) (c : Color) (s : Square) :
    leverPushBB (mirror pos) c (flipSq s) = flipBB (leverPushBB pos c.other s) := by
  unfold leverPushBB
  rw [theirPawns_mirror, upAttacksBB_flip, flipBB_inter]

theorem doubledBB_mirror (pos : Position) (c : Color) (s : Square) :
    doubledBB (mirror pos) c (flipSq s) = flipBB (doubledBB pos c.other s) := by
  unfold doubledBB
  rw [ourPawns_mirror, downBB_flip, flipBB_inter]

theorem neighboursBB_mirror (pos : Position) (c : Color) (s : Square) :
    neighboursBB (mirror pos) c (flipSq s) = flipBB (neighboursBB pos c.other s) := by
  unfold neighboursBB
  rw [ourPawns_mirror, fileOf_flip, flipBB_inter, adjacentFilesBB_flipInv]

theorem phalanxBB_mirror (pos : Position) (c : Color) (s : Square) :
    phalanxBB (mirror pos) c (flipSq s) = flipBB (phalanxBB pos c.other s) := by
  unfold phalanxBB
  rw [neighboursBB_mirror, rankBB_flip, flipBB_inter]

theorem supportedBB_mirror (pos : Position) (c : Color) (s : Square) :
    supportedBB (mirror pos) c (flipSq s) = flipBB (supportedBB pos c.other s) := by
  unfold supportedBB
  rw [neighboursBB_mirror, downRankBB_flip, flipBB_inter]

theorem backwardP_mirror (pos : Position) (c : Color) (s : Square) :
    backwardP (mirror pos) c (flipSq s) ↔ backwardP pos c.other s := by
  unfold backwardP
  rw [ourPawns_mirror, backwardSpanBB_flip, ← flipBB_inter, flipBB_eq_empty,
    stoppersBB_mirror, leverPushBB_mirror, upBB_flip, ← flipBB_union, ← flipBB_inter,
    flipBB_nonempty]

theorem passedCondI_mirror (pos : Position) (c : Color) (s : Square) :
    passedCondI (mirror pos) c (flipSq s) ↔ passedCondI pos c.other s := by
  unfold passedCondI
  rw [stoppersBB_mirror, leverBB_mirror, leverPushBB_mirror, supportedBB_mirror,
    phalanxBB_mirror, ourPawns_mirror, forwardFileBB_flip, ← flipBB_bxor,
    ← flipBB_bxor, ← flipBB_inter, flipBB_eq_empty, flipBB_eq_empty,
    flipBB_card, flipBB_card, flipBB_card, flipBB_card]

theorem passedCondIIGuard_mirror (pos : Position) (c : Color) (s : Square) :
    passedCondIIGuard (mirror pos) c (flipSq s) ↔ passedCondIIGuard pos c.other s := by
  unfold passedCondIIGuard
  rw [stoppersBB_mirror, upBB_flip, flipBB_eq_iff, relativeRank_flip]

theorem passedCondIIBody_mirror (pos : Position) (c : Color) (s : Square) :
    passedCondIIBody (mirror pos) c (flipSq s) ↔ passedCondIIBody pos c.other s := by
  unfold passedCondIIBody
  rw [supportedBB_mirror, shiftUpBB_flip, theirPawns_mirror, ← flipBB_sdiff]
  constructor
  · rintro ⟨q, hq, hc⟩
    rw [mem_flipBB] at hq
    refine ⟨flipSq q, hq, ?_⟩
    have hA : pawnAttacksSq c q = flipBB (pawnAttacksSq c.other (flipSq q)) := by
      have h2 := pawnAttacksSq_flip c (flipSq q)
      rwa [flipSq_flipSq] at h2
    rw [hA, ← flipBB_inter, flipBB_card] at hc
    exact hc
  · rintro ⟨q, hq, hc⟩
    refine ⟨flipSq q, ?_, ?_⟩
    · rw [mem_flipBB, flipSq_flipSq]
      exact hq
    · rw [pawnAttacksSq_flip, ← flipBB_inter, flipBB_card]
      exact hc

theorem passedMark_mirror (pos : Position) (c : Color) (s : Square) :
    passedMark (mirror pos) c (flipSq s) = passedMark pos c.other s := by
  unfold passedMark
  by_cases h1 : passedCondI pos c.other s
  · rw [if_pos h1, if_pos ((passedCondI_mirror pos c s).mpr h1)]
  · rw [if_neg h1, if_neg (fun hc => h1 ((passedCondI_mirror pos c s).mp hc))]
    by_cases h2 : passedCondIIGuard pos c.other s
    · rw [if_pos h2, if_pos ((passedCondIIGuard_mirror pos c s).mpr h2)]
      exact decide_eq_decide.mpr (passedCondIIBody_mirror pos c s)
    · rw [if_neg h2, if_neg (fun hc => h2 ((passedCondIIGuard_mirror pos c s).mp hc))]

theorem passedBB_mirror (pos : Position) (c : Color) :
    passedBB (mirror pos) c = flipBB (passedBB pos c.other) := by
  ext t
  rw [mem_flipBB]
  unfold passedBB
  simp only [Finset.mem_filter]
  rw [ourPawns_mirror, mem_flipBB]
  have hm : passedMark (mirror pos) c t = passedMark pos c.other (flipSq t) := by
    have h2 := passedMark_mirror pos c (flipSq t)
    rwa [flipSq_flipSq] at h2
  rw [hm]

theorem passed1P_mirror (pos : Position) (c : Color) (s : Square) :
    passed1P (mirror pos) c (flipSq s) ↔ passed1P pos c.other s := by
  unfold passed1P
  rw [passedPawnMaskBB_flip, ourPawns_mirror, ← flipBB_inter, flipBB_nonempty]

theorem flipSq_mkSq (a b : Nat) (hb : b < 8) : flipSq (mkSq a b) = mkSq a (7 - b) := by
  apply Fin.ext
  show 8 * (7 - (8 * (b % 8) + a % 8) / 8) + (8 * (b % 8) + a % 8) % 8 =
    8 * ((7 - b) % 8) + a % 8
  omega

theorem protectedColorCond_mirror (c : Color) (s : Square) :
    ((c = Color.white ∧ 1 < rankOf (flipSq s)) ∨
      (c = Color.black ∧ rankOf (flipSq s) < 6)) ↔
    ((c.other = Color.white ∧ 1 < rankOf s) ∨
      (c.other = Color.black ∧ rankOf s < 6)) := by
  have h := rankOf_lt s
  rw [rankOf_flip]
  cases c <;> simp [Color.other] <;> omega

theorem protectedDiag_mirror (pos : Position) (c : Color) (s : Square) :
    (∃ t : Square, adjFile (fileOf (flipSq s)) (fileOf t) ∧
      rankUpOne c (rankOf t) (rankOf (flipSq s)) ∧
      (mirror pos).board t = some (c, PieceType.pawn)) ↔
    (∃ t : Square, adjFile (fileOf s) (fileOf t) ∧
      rankUpOne c.other (rankOf t) (rankOf s) ∧
      pos.board t = some (c.other, PieceType.pawn)) := by
  constructor
  · rintro ⟨t, hadj, hr, hb⟩
    refine ⟨flipSq t, ?_, ?_, ?_⟩
    · rw [fileOf_flip]
      rw [fileOf_flip] at hadj
      exact hadj
    · rw [rankOf_flip] at hr
      rw [rankOf_flip]
      exact (rankUpOne_flipB c (rankOf t) (rankOf s) (rankOf_lt t) (rankOf_lt s)).mp hr
    · exact (mirror_board_iff pos c PieceType.pawn t).mp hb
  · rintro ⟨t, hadj, hr, hb⟩
    refine ⟨flipSq t, ?_, ?_, ?_⟩
    · rw [fileOf_flip, fileOf_flip]
      exact hadj
    · rw [rankOf_flip, rankOf_flip]
      have h2 := (rankUpOne_flip_both c.other (rankOf t) (rankOf s)
        (rankOf_lt t) (rankOf_lt s)).mp hr
      rwa [Color.other_other] at h2
    · rw [mirror_board_iff, flipSq_flipSq]
      exact hb

theorem protectedTerm_mirror (pos : Position) (c : Color) (s : Square) :
    protectedTerm (mirror pos) c (flipSq s) = protectedTerm pos c.other s := by
  rw [protectedTerm_eq, protectedTerm_eq]
  exact if_congr
    (and_congr (passed1P_mirror pos c s)
      (and_congr (protectedColorCond_mirror c s) (protectedDiag_mirror pos c s)))
    rfl rfl

theorem weakUnopposedTerm_mirror (pos : Position) (c : Color) (s : Square) :
    weakUnopposedTerm (mirror pos) c (flipSq s) = weakUnopposedTerm pos c.other s := by
  unfold weakUnopposedTerm
  simp only [supportedBB_mirror, phalanxBB_mirror, neighboursBB_mirror,
    ← flipBB_union, flipBB_nonempty, flipBB_eq_empty,
    opposedP_mirror, backwardP_mirror]

theorem scoreTerm1_mirror (pos : Position) (c : Color) (s : Square) :
    scoreTerm1 (mirror pos) c (flipSq s) = scoreTerm1 pos c.other s := by
  unfold scoreTerm1
  rw [protectedTerm_mirror]
  simp only [supportedBB_mirror, phalanxBB_mirror, neighboursBB_mirror,
    doubledBB_mirror, ← flipBB_union, flipBB_nonempty, flipBB_eq_empty, flipBB_card,
    opposedP_mirror, backwardP_mirror, relativeRank_flip]

theorem firstKing_eq (pos : Position) (c : Color) (k : Square)
    (hk : pos.board k = some (c, PieceType.king))
    (huniq : ∀ t : Square, pos.board t = some (c, PieceType.king) → t = k) :
    firstKing pos c = some k := by
  have hsome : (firstKing pos c).isSome := by
    unfold firstKing
    rw [List.find?_isSome]
    exact ⟨k, List.mem_finRange k, by simp [hk]⟩
  obtain ⟨k2, hk2⟩ := Option.isSome_iff_exists.mp hsome
  have hp : pos.board k2 = some (c, PieceType.king) := by
    unfold firstKing at hk2
    have h3 := List.find?_some hk2
    simpa using h3
  rw [hk2, huniq k2 hp]

theorem scanExists_mirror (pos : Position) (c : Color) (f0 : Nat) :
    (∃ r : Fin 6, (mirror pos).board (mkSq f0 (r.val + 1)) = some (c, PieceType.pawn) ∧
        mkSq f0 (r.val + 1) ∈ passedBB (mirror pos) c) ↔
    (∃ r : Fin 6, pos.board (mkSq f0 (r.val + 1)) = some (c.other, PieceType.pawn) ∧
        mkSq f0 (r.val + 1) ∈ passedBB pos c.other) := by
  constructor
  · rintro ⟨r, hb, hm⟩
    have hr6 := r.isLt
    refine ⟨⟨5 - r.val, by omega⟩, ?_, ?_⟩
    · rw [mirror_board_iff, flipSq_mkSq f0 (r.val + 1) (by omega)] at hb
      have harr : 7 - (r.val + 1) = (5 - r.val) + 1 := by omega
      rw [harr] at hb
      exact hb
    · rw [passedBB_mirror, mem_flipBB, flipSq_mkSq f0 (r.val + 1) (by omega)] at hm
      have harr : 7 - (r.val + 1) = (5 - r.val) + 1 := by omega
      rw [harr] at hm
      exact hm
  · rintro ⟨r, hb, hm⟩
    have hr6 := r.isLt
    refine ⟨⟨5 - r.val, by omega⟩, ?_, ?_⟩
    · rw [mirror_board_iff, flipSq_mkSq f0 ((5 - r.val) + 1) (by omega)]
      have harr : 7 - ((5 - r.val) + 1) = r.val + 1 := by omega
      rw [harr]
      exact hb
    · rw [passedBB_mirror, mem_flipBB, flipSq_mkSq f0 ((5 - r.val) + 1) (by omega)]
      have harr : 7 - ((5 - r.val) + 1) = r.val + 1 := by omega
      rw [harr]
      exact hm

theorem connectedPassedTerm_mirror (pos : Position) (c : Color) (s : Square)
    (hu : uniqueKing pos c.other) :
    connectedPassedTerm (mirror pos) c (flipSq s) = connectedPassedTerm pos c.other s := by
  obtain ⟨k, hk, huk⟩ := hu
  have hk1 : firstKing pos c.other = some k := firstKing_eq pos c.other k hk huk
  have hkm : (mirror pos).board (flipSq k) = some (c, PieceType.king) := by
    rw [mirror_board_iff, flipSq_flipSq]
    exact hk
  have hukm : ∀ t : Square, (mirror pos).board t = some (c, PieceType.king) →
      t = flipSq k := by
    intro t ht
    rw [mirror_board_iff] at ht
    have h2 := congrArg flipSq (huk (flipSq t) ht)
    rwa [flipSq_flipSq] at h2
  have hk2 : firstKing (mirror pos) c = some (flipSq k) :=
    firstKing_eq (mirror pos) c (flipSq k) hkm hukm
  rw [connectedPassedTerm_eq, connectedPassedTerm_eq, hk1, hk2]
  dsimp only
  rw [fileOf_flip s, fileOf_flip k]
  exact if_congr
    (and_congr Iff.rfl
      (and_congr (passed1P_mirror pos c s) (scanExists_mirror pos c (fileOf s - 1))))
    rfl rfl

theorem sum_flipBB {M : Type} [AddCommMonoid M] (b : Board) (f : Square → M) :
    ∑ s ∈ flipBB b, f s = ∑ s ∈ b, f (flipSq s) := by
  rw [flipBB_image, Finset.sum_image (fun x _ y _ h => flipSq_inj h)]

theorem fileFin_flip (s : Square) : fileFin (flipSq s) = fileFin s := by
  apply Fin.ext
  show (flipSq s).val % 8 = s.val % 8
  exact fileOf_flip s

/-- Claim C7: mirroring a position (swap all piece colors, flip the board
vertically) swaps the two colors of every classifier output: the score pairs
swap exactly, passedPawns, pawnAttacks and the attack span are the flipped
bitboards of the other color, the semi-open-file masks and weakUnopposed
counters swap unchanged, and the pawns-on-dark and pawns-on-light counters
swap with each other (the vertical flip exchanges the two square colors).
The validity assumption of §7 supplies one king per color for the second
pass. -/
theorem mirror_symmetry (pos : Position) (hu : ∀ c0 : Color, uniqueKing pos c0)
    (c : Color) :
    (evaluateSide (mirror pos) c).score = (evaluateSide pos c.other).score ∧
    (evaluateSide (mirror pos) c).passedPawns =
      flipBB ((evaluateSide pos c.other).passedPawns) ∧
    (evaluateSide (mirror pos) c).pawnAttacks =
      flipBB ((evaluateSide pos c.other).pawnAttacks) ∧
    (evaluateSide (mirror pos) c).pawnAttacksSpan =
      flipBB ((evaluateSide pos c.other).pawnAttacksSpan) ∧
    (evaluateSide (mirror pos) c).semiopenFiles =
      (evaluateSide pos c.other).semiopenFiles ∧
    (evaluateSide (mirror pos) c).weakUnopposed =
      (evaluateSide pos c.other).weakUnopposed ∧
    (evaluateSide (mirror pos) c).kingSquare =
      (evaluateSide pos c.other).kingSquare ∧
    (evaluateSide (mirror pos) c).pawnsOnDark =
      (evaluateSide pos c.other).pawnsOnLight ∧
    (evaluateSide (mirror pos) c).pawnsOnLight =
      (evaluateSide pos c.other).pawnsOnDark := by
  unfold evaluateSide
  dsimp only
  refine ⟨?_, passedBB_mirror pos c, ?_, ?_, ?_, ?_, rfl, ?_, ?_⟩
  · rw [ourPawns_mirror, sum_flipBB, sum_flipBB,
      Finset.sum_congr rfl (fun s _ => scoreTerm1_mirror pos c s),
      Finset.sum_congr rfl (fun s _ => connectedPassedTerm_mirror pos c s (hu c.other))]
  · rw [ourPawns_mirror, pawnAttacksSetBB_flip]
  · rw [ourPawns_mirror, spanUnionBB_flip]
  · rw [ourPawns_mirror, flipBB_image, Finset.image_image]
    have hff : fileFin ∘ flipSq = fileFin := funext (fun s => fileFin_flip s)
    rw [hff]
  · rw [ourPawns_mirror, sum_flipBB]
    exact Finset.sum_congr rfl (fun s _ => weakUnopposedTerm_mirror pos c s)
  · rw [ourPawns_mirror]
    have h1 : flipBB (ourPawns pos c.other) ∩ darkSquaresBB =
        flipBB (ourPawns pos c.other ∩ (Finset.univ \ darkSquaresBB)) := by
      rw [flipBB_inter, ← darkSquaresBB_flip, flipBB_flipBB]
    rw [h1, flipBB_card]
    have h2 : ourPawns pos c.other ∩ (Finset.univ \ darkSquaresBB) =
        ourPawns pos c.other \ darkSquaresBB := by
      ext t
      simp
    rw [h2]
    have h3 := Finset.card_sdiff_add_card_inter (ourPawns pos c.other) darkSquaresBB
    omega
  · rw [ourPawns_mirror, flipBB_card]
    have h1 : flipBB (ourPawns pos c.other) ∩ darkSquaresBB =
        flipBB (ourPawns pos c.other ∩ (Finset.univ \ darkSquaresBB)) := by
      rw [flipBB_inter, ← darkSquaresBB_flip, flipBB_flipBB]
    rw [h1, flipBB_card]
    have h2 : ourPawns pos c.other ∩ (Finset.univ \ darkSquaresBB) =
        ourPawns pos c.other \ darkSquaresBB := by
      ext t
      simp
    rw [h2]
    have h3 := Finset.card_sdiff_add_card_inter (ourPawns pos c.other) darkSquaresBB
    omega

/-- Claim C7, witness: the symmetry applied to the concrete position with
kings e1 and e8, a White pawn b2 and a Black pawn c7. -/
theorem mirror_symmetry_witness :
    (∀ c0 : Color, uniqueKing posC7 c0) ∧
    ((evaluateSide (mirror posC7) Color.white).score =
        (evaluateSide posC7 Color.black).score ∧
      (evaluateSide (mirror posC7) Color.white).passedPawns =
        flipBB ((evaluateSide posC7 Color.black).passedPawns) ∧
      (evaluateSide (mirror posC7) Color.white).pawnAttacks =
        flipBB ((evaluateSide posC7 Color.black).pawnAttacks) ∧
      (evaluateSide (mirror posC7) Color.white).pawnAttacksSpan =
        flipBB ((evaluateSide posC7 Color.black).pawnAttacksSpan) ∧
      (evaluateSide (mirror posC7) Color.white).semiopenFiles =
        (evaluateSide posC7 Color.black).semiopenFiles ∧
      (evaluateSide (mirror posC7) Color.white).weakUnopposed =
        (evaluateSide posC7 Color.black).weakUnopposed ∧
      (evaluateSide (mirror posC7) Color.white).kingSquare =
        (evaluateSide posC7 Color.black).kingSquare ∧
      (evaluateSide (mirror posC7) Color.white).pawnsOnDark =
        (evaluateSide posC7 Color.black).pawnsOnLight ∧
      (evaluateSide (mirror posC7) Color.white).pawnsOnLight =
        (evaluateSide posC7 Color.black).pawnsOnDark) :=
  ⟨by decide, mirror_symmetry posC7 (by decide) Color.white⟩

end SugaRPawns
